import Mathlib

/-!
Shallow embedding of the `repr` package (src/repr.go): a renderer that turns
Go values into copy-pasteable Go source literals.

Embedding conventions:

* Go's `reflect.Value`s are modelled by the inductive `Value` below, a finite
  tree.  Every node carries an identity `id : Nat` standing for the
  `reflect.Value` map-key identity used by the `seen` cycle set of
  `reprValue` (`seen map[reflect.Value]bool`, src/repr.go lines 192-197).
* `reprValue` writes to an `io.Writer`; the embedding returns the emitted
  string instead, and threads the mutable `seen` map explicitly:
  `seen[v] = true` is modelled by consing the id, the deferred
  `delete(seen, v)` by erasing it when the call returns.
* The Go function recurses on a possibly cyclic object graph.  The tree
  renderer below indexes recursion depth by a fuel parameter and returns
  `none` when the fuel runs out; every claim about it holds uniformly in the
  fuel.  Cyclic values cannot inhabit a Lean inductive, so termination on
  cyclic inputs is settled over the separate graph model (`Cell`, `reprG`)
  further down, which renders a finite heap of identified cells.
* External library behaviour that `repr.go` calls is modelled structurally:
  `fmt.Sprint` (`%v`) by `sprintValue`, `%q` quoting by `goQuote` /
  `goQuoteBytes` (exact for ASCII, byte-level for the rest), byte-wise Go
  string comparison by `goLess` (UTF-8 byte order and code-point order
  agree), `reflect.Value.IsZero` by `goIsZero`.  Pointer/chan addresses in
  `%v` output are abstracted by the node identity.
* No type of the modelled universe implements `fmt.GoStringer`, so the
  interception at src/repr.go line 218 never fires (as for Go toolchains
  where `time.Time` has no `GoString` method); likewise the `unsafe`
  accessibility valve (lines 211-216) is modelled as already resolved, and
  the only modelled type with an `IsZero() bool` method is `time.Time`.
* `sort.Slice` (line 257) is unstable in Go; for keys with pairwise distinct
  sort strings every comparison sort yields the same list, and for tied keys
  Go's small-slice insertion sort preserves the (randomised) enumeration
  order.  The embedding uses the stable `List.insertionSort`, whose output
  on tied keys follows the enumeration order, matching that behaviour.
-/

namespace GoRepr

/-- Kind mirrors reflect.Kind as used by repr.go. -/
inductive Kind where
  | bool | int | int8 | int16 | int32 | int64
  | uint | uint8 | uint16 | uint32 | uint64 | uintptr
  | float32 | float64 | complex64 | complex128
  | array | chan | func | map | slice | string
  | struct | ptr | iface | invalid
deriving DecidableEq

/-- realKindName mirrors the `realKindName` map of src/repr.go lines 22-45:
the "real" names of basic kinds; kinds absent from the Go map (struct, ptr,
interface, invalid) yield the empty string, as a Go map lookup does. -/
def realKindName : Kind → String
  | .bool => "bool"
  | .int => "int"
  | .int8 => "int8"
  | .int16 => "int16"
  | .int32 => "int32"
  | .int64 => "int64"
  | .uint => "uint"
  | .uint8 => "uint8"
  | .uint16 => "uint16"
  | .uint32 => "uint32"
  | .uint64 => "uint64"
  | .uintptr => "uintptr"
  | .float32 => "float32"
  | .float64 => "float64"
  | .complex64 => "complex64"
  | .complex128 => "complex128"
  | .array => "array"
  | .chan => "chan"
  | .func => "func"
  | .map => "map"
  | .slice => "slice"
  | .string => "string"
  | .struct => ""
  | .ptr => ""
  | .iface => ""
  | .invalid => ""

/-- joinAll concatenates a list of strings (the emitted chunks of a loop). -/
def joinAll : List String → String
  | [] => ""
  | s :: rest => s ++ joinAll rest

/-- sepJoin mirrors strings.Join: parts separated by `sep`, nothing after
the last. -/
def sepJoin (sep : String) : List String → String
  | [] => ""
  | [s] => s
  | s :: rest => s ++ sep ++ sepJoin sep rest

/-- GoType mirrors reflect.Type as consulted by repr.go: kind, Name(),
String(), element/key types, and identity comparison.  `named str nm u` is a
defined (named) type over underlying type `u` with String() = `str` (package
qualified) and Name() = `nm`.  `ifaceT ""` is the `any` type
(`interface \x7b\x7d`).  Function parameter/result type texts are carried
pre-rendered (`ins`, `outs`) since no claim depends on them. -/
inductive GoType where
  | prim (k : Kind)
  | named (str nm : String) (u : GoType)
  | slice (elem : GoType)
  | array (n : Nat) (elem : GoType)
  | mapT (key elem : GoType)
  | chanT (dir : String) (elem : GoType)
  | funcT (nm : String) (ins outs : List String)
  | ptrT (elem : GoType)
  | ifaceT (str : String)
  | structT (str : String)
deriving DecidableEq

/-- Kind of a type, as reflect.Type.Kind() returns it. -/
def GoType.kind : GoType → Kind
  | .prim k => k
  | .named _ _ u => u.kind
  | .slice _ => .slice
  | .array _ _ => .array
  | .mapT _ _ => .map
  | .chanT _ _ => .chan
  | .funcT _ _ _ => .func
  | .ptrT _ => .ptr
  | .ifaceT _ => .iface
  | .structT _ => .struct

/-- Element type (reflect.Type.Elem()), looking through named wrappers. -/
def GoType.elemT : GoType → GoType
  | .slice e => e
  | .array _ e => e
  | .mapT _ e => e
  | .chanT _ e => e
  | .ptrT e => e
  | .named _ _ u => u.elemT
  | _ => .prim .invalid

/-- Key type of a map type (reflect.Type.Key()). -/
def GoType.keyT : GoType → GoType
  | .mapT k _ => k
  | .named _ _ u => u.keyT
  | _ => .prim .invalid

/-- Name() of a type: the bare name for predeclared and defined types, empty
for unnamed composite types (only consulted for string and scalar kinds). -/
def GoType.typeName : GoType → String
  | .prim k => realKindName k
  | .named _ nm _ => nm
  | _ => ""

/-- String() of a type, as the `%s` verb prints a reflect.Type. -/
def GoType.typeStr : GoType → String
  | .prim k => realKindName k
  | .named str _ _ => str
  | .slice e => "[]" ++ e.typeStr
  | .array n e => "[" ++ toString n ++ "]" ++ e.typeStr
  | .mapT k v => "map[" ++ k.typeStr ++ "]" ++ v.typeStr
  | .chanT d e => d ++ " " ++ e.typeStr
  | .funcT nm ins outs =>
    if outs.isEmpty then "func" ++ nm ++ "(" ++ sepJoin ", " ins ++ ")"
    else
      "func" ++ nm ++ "(" ++ sepJoin ", " ins ++ ") (" ++
        sepJoin ", " outs ++ ")"
  | .ptrT e => "*" ++ e.typeStr
  | .ifaceT s => if s = "" then "interface \x7b\x7d" else s
  | .structT s => s

/-- The `any` type (repr.go line 48, `anyType`). -/
def anyT : GoType := .ifaceT ""

/-- The unnamed `[]uint8` type (repr.go line 50, `byteSliceType`). -/
def byteSliceT : GoType := .slice (.prim .uint8)

/-- substAny mirrors src/repr.go lines 452-485: the type literal used for
composite heads, with `interface \x7b\x7d` replaced by `any`; kinds without a
case fall to the default `t.String()` (with `any` for the any type itself). -/
def substAny : GoType → String
  | .array n e => "[" ++ toString n ++ "]" ++ substAny e
  | .slice e => "[]" ++ substAny e
  | .mapT k v => "map[" ++ substAny k ++ "]" ++ substAny v
  | .chanT d e => d ++ " " ++ substAny e
  | .funcT nm ins outs =>
    if outs.isEmpty then "func" ++ nm ++ "(" ++ sepJoin ", " ins ++ ")"
    else
      "func" ++ nm ++ "(" ++ sepJoin ", " ins ++ ") (" ++
        sepJoin ", " outs ++ ")"
  | .named str nm u =>
    match u with
    | .array n e => "[" ++ toString n ++ "]" ++ substAny e
    | .slice e => "[]" ++ substAny e
    | .mapT k v => "map[" ++ substAny k ++ "]" ++ substAny v
    | .chanT d e => d ++ " " ++ substAny e
    | .funcT fn ins outs =>
      if outs.isEmpty then "func" ++ fn ++ "(" ++ sepJoin ", " ins ++ ")"
      else
        "func" ++ fn ++ "(" ++ sepJoin ", " ins ++ ") (" ++
          sepJoin ", " outs ++ ")"
    | _ => GoType.typeStr (.named str nm u)
  | .prim k => realKindName k
  | .ptrT e => "*" ++ GoType.typeStr e
  | .ifaceT s => if s = "" then "any" else s
  | .structT s => s

/-- Two lowercase hex digits of a byte value, as Go escape sequences use. -/
def hexByte (n : Nat) : String :=
  (if n < 16 then "0" else "") ++ String.mk (Nat.toDigits 16 n)

/-- Escape of one character under the `%q` verb (strconv.Quote): exact for
ASCII; code points above 0xFF are kept verbatim (strconv keeps printable
runes), an approximation noted in the file header. -/
def goQuoteChar (c : Char) : String :=
  if c = '"' then "\\\""
  else if c = '\\' then "\\\\"
  else if c = '\n' then "\\n"
  else if c = '\t' then "\\t"
  else if c = '\r' then "\\r"
  else if c.toNat = 7 then "\\a"
  else if c.toNat = 8 then "\\b"
  else if c.toNat = 11 then "\\v"
  else if c.toNat = 12 then "\\f"
  else if 32 ≤ c.toNat ∧ c.toNat < 127 then String.singleton c
  else if c.toNat < 256 then "\\x" ++ hexByte c.toNat
  else String.singleton c

/-- The `%q` verb on a string value. -/
def goQuote (s : String) : String :=
  "\"" ++ String.join (s.data.map goQuoteChar) ++ "\""

/-- Escape of one raw byte under `%q` applied to a []byte. -/
def goQuoteByte (b : Nat) : String :=
  if b = 34 then "\\\""
  else if b = 92 then "\\\\"
  else if b = 10 then "\\n"
  else if b = 9 then "\\t"
  else if b = 13 then "\\r"
  else if b = 7 then "\\a"
  else if b = 8 then "\\b"
  else if b = 11 then "\\v"
  else if b = 12 then "\\f"
  else if 32 ≤ b ∧ b < 127 then String.singleton (Char.ofNat b)
  else "\\x" ++ hexByte (b % 256)

/-- The `%q` verb on a []byte value (repr.go line 206), at byte granularity. -/
def goQuoteBytes (bs : List Nat) : String :=
  "\"" ++ String.join (bs.map goQuoteByte) ++ "\""

/-- Byte-wise less-than on character lists: Go's `<` on strings compares
UTF-8 bytes, whose order coincides with code-point order. -/
def charsLt : List Char → List Char → Bool
  | [], [] => false
  | [], _ :: _ => true
  | _ :: _, [] => false
  | a :: as, b :: bs =>
    if a.toNat < b.toNat then true
    else if b.toNat < a.toNat then false
    else charsLt as bs

/-- Go string comparison `a < b` (used by the key sort at repr.go line 258). -/
def goLess (a b : String) : Bool := charsLt a.data b.data

/-- Location models *time.Location as timeToGo distinguishes it: the nil
location, the time.UTC sentinel, the time.Local sentinel, a fixed zone, or a
loaded named zone (repr.go lines 436-446 compare location identity). -/
inductive Location where
  | locNil
  | utc
  | localLoc
  | fixedZone (name : String) (offset : Int)
  | namedZone (name : String)
deriving DecidableEq

/-- GoTime models a time.Time as timeToGo consumes it: the wall-clock
components returned by Date()/Hour()/Minute()/Second()/Nanosecond(), the
location, the abbreviation and offset returned by Zone(), and the result of
IsZero() (which depends on the absolute instant). -/
structure GoTime where
  year : Int
  month : Nat
  day : Nat
  hour : Nat
  minute : Nat
  second : Nat
  nanosecond : Nat
  loc : Location
  zoneName : String
  zoneOffset : Int
  isZero : Bool
deriving DecidableEq

/-- timeToGo mirrors src/repr.go lines 429-449: a zero time renders as the
fixed literal, otherwise a time.Date constructor call whose zone argument is
a sentinel for UTC/Local/nil and a time.FixedZone call embedding the zone
abbreviation and offset otherwise. -/
def timeToGo (t : GoTime) : String :=
  if t.isZero then "time.Time\x7b\x7d"
  else
    let zone : String :=
      match t.loc with
      | .locNil => "nil"
      | .utc => "time.UTC"
      | .localLoc => "time.Local"
      | .fixedZone _ _ => "time.FixedZone(" ++ goQuote t.zoneName ++ ", " ++ toString t.zoneOffset ++ ")"
      | .namedZone _ => "time.FixedZone(" ++ goQuote t.zoneName ++ ", " ++ toString t.zoneOffset ++ ")"
    "time.Date(" ++ toString t.year ++ ", " ++ toString t.month ++ ", " ++ toString t.day ++
      ", " ++ toString t.hour ++ ", " ++ toString t.minute ++ ", " ++ toString t.second ++
      ", " ++ toString t.nanosecond ++ ", " ++ zone ++ ")"

/-- Value models a reflect.Value tree: each node carries the identity used by
the `seen` cycle map.  `sliceV` covers both slices and arrays (distinguished
by the kind of `t`), `nilV` is a nil pointer/map/chan/slice/func/interface
value of type `t`, `ifaceV` a non-nil interface value wrapping its dynamic
value, and `scalarV` a numeric/bool scalar with its integer value `n` and its
`%v` and `%#v` renderings `sv`/`gv` (a String method feeds `%v`, never
`%#v`). -/
inductive Value where
  | invalid (id : Nat)
  | nilV (id : Nat) (t : GoType)
  | scalarV (id : Nat) (t : GoType) (n : Int) (sv gv : String)
  | strV (id : Nat) (t : GoType) (s : String)
  | sliceV (id : Nat) (t : GoType) (elems : List Value)
  | mapV (id : Nat) (t : GoType) (entries : List (Value × Value))
  | structV (id : Nat) (t : GoType) (fields : List (String × GoType × Value × Bool))
  | ptrV (id : Nat) (t : GoType) (elem : Value)
  | ifaceV (id : Nat) (t : GoType) (elem : Value)
  | chanV (id : Nat) (t : GoType) (capacity : Nat)
  | funcV (id : Nat) (t : GoType)
  | timeV (id : Nat) (tm : GoTime)

/-- Identity of a value node, the key of the `seen` map. -/
def vid : Value → Nat
  | .invalid id => id
  | .nilV id _ => id
  | .scalarV id _ _ _ _ => id
  | .strV id _ _ => id
  | .sliceV id _ _ => id
  | .mapV id _ _ => id
  | .structV id _ _ => id
  | .ptrV id _ _ => id
  | .ifaceV id _ _ => id
  | .chanV id _ _ => id
  | .funcV id _ => id
  | .timeV id _ => id

/-- Static type of a value node. -/
def vtype : Value → GoType
  | .invalid _ => .prim .invalid
  | .nilV _ t => t
  | .scalarV _ t _ _ _ => t
  | .strV _ t _ => t
  | .sliceV _ t _ => t
  | .mapV _ t _ => t
  | .structV _ t _ => t
  | .ptrV _ t _ => t
  | .ifaceV _ t _ => t
  | .chanV _ t _ => t
  | .funcV _ t => t
  | .timeV _ _ => .structT "time.Time"

mutual

/-- goIsZero models reflect.Value.IsZero: nil references, zero scalars and
empty strings are zero; structs and arrays are zero when all members are;
non-nil slices, maps, pointers, interfaces, chans and funcs are not. -/
def goIsZero : Value → Bool
  | .invalid _ => true
  | .nilV _ _ => true
  | .scalarV _ _ n _ _ => n = 0
  | .strV _ _ s => s = ""
  | .sliceV _ t elems => if t.kind = .array then goIsZeroList elems else false
  | .mapV _ _ _ => false
  | .structV _ _ fields => goIsZeroFields fields
  | .ptrV _ _ _ => false
  | .ifaceV _ _ _ => false
  | .chanV _ _ _ => false
  | .funcV _ _ => false
  | .timeV _ tm => tm.isZero

/-- Conjunction of goIsZero over array elements. -/
def goIsZeroList : List Value → Bool
  | [] => true
  | e :: rest => goIsZero e && goIsZeroList rest

/-- Conjunction of goIsZero over struct fields. -/
def goIsZeroFields : List (String × GoType × Value × Bool) → Bool
  | [] => true
  | (_, _, fv, _) :: rest => goIsZero fv && goIsZeroFields rest

end

/-- Length of a slice/map value (reflect.Value.Len); nil slices and maps have
length zero. -/
def goLen : Value → Nat
  | .sliceV _ _ elems => elems.length
  | .mapV _ _ entries => entries.length
  | _ => 0

/-- Byte values of a []byte node (reflect.Value.Bytes), reading each scalar
element modulo 256. -/
def bytesOf (elems : List Value) : List Nat :=
  elems.map fun e =>
    match e with
    | .scalarV _ _ n _ _ => (n % 256).toNat
    | _ => 0

/-- Zero-padding of a number to two digits, for the modelled time.Time
String() form. -/
def pad2 (n : Nat) : String :=
  (if n < 10 then "0" else "") ++ toString n

mutual

/-- sprintValue models `fmt.Sprint` (the `%v` verb) on a reflect.Value, the
sort key of the map-key sort at src/repr.go line 258: scalars print their
`%v` text (a String method included), strings print unquoted, composites
print in fmt's bracketed forms, interfaces print their dynamic value, and
pointer/chan addresses are abstracted by the node identity. -/
def sprintValue : Value → String
  | .invalid _ => "<invalid reflect.Value>"
  | .nilV _ t =>
    match t.kind with
    | .map => "map[]"
    | .slice => "[]"
    | _ => "<nil>"
  | .scalarV _ _ _ sv _ => sv
  | .strV _ _ s => s
  | .sliceV _ _ elems => "[" ++ sprintList elems ++ "]"
  | .mapV _ _ entries => "map[" ++ sprintEntries entries ++ "]"
  | .structV _ _ fields => "\x7b" ++ sprintFields fields ++ "\x7d"
  | .ptrV id _ e =>
    match e with
    | .structV _ _ _ => "&" ++ sprintValue e
    | .sliceV _ _ _ => "&" ++ sprintValue e
    | .mapV _ _ _ => "&" ++ sprintValue e
    | _ => "0x" ++ toString id
  | .ifaceV _ _ e => sprintValue e
  | .chanV id _ _ => "0x" ++ toString id
  | .funcV id _ => "0x" ++ toString id
  | .timeV _ tm =>
    toString tm.year ++ "-" ++ pad2 tm.month ++ "-" ++ pad2 tm.day ++ " " ++
      pad2 tm.hour ++ ":" ++ pad2 tm.minute ++ ":" ++ pad2 tm.second ++ "." ++
      toString tm.nanosecond ++ " " ++ tm.zoneName

/-- Space-separated `%v` of list elements. -/
def sprintList : List Value → String
  | [] => ""
  | [e] => sprintValue e
  | e :: rest => sprintValue e ++ " " ++ sprintList rest

/-- Space-separated `key:value` pairs of a map's `%v` form (fmt orders them
canonically; the model keeps the listed order, which no claim depends on). -/
def sprintEntries : List (Value × Value) → String
  | [] => ""
  | [(k, v)] => sprintValue k ++ ":" ++ sprintValue v
  | (k, v) :: rest => sprintValue k ++ ":" ++ sprintValue v ++ " " ++ sprintEntries rest

/-- Space-separated `%v` of struct field values. -/
def sprintFields : List (String × GoType × Value × Bool) → String
  | [] => ""
  | [(_, _, fv, _)] => sprintValue fv
  | (_, _, fv, _) :: rest => sprintValue fv ++ " " ++ sprintFields rest

end

/-- Printer mirrors the Printer struct of src/repr.go lines 119-131 (the
output writer is modelled by returning the emitted string). -/
structure Printer where
  indent : String
  omitEmpty : Bool
  omitZero : Bool
  ignoreGoStringer : Bool
  ignorePrivate : Bool
  alwaysIncludeType : Bool
  explicitTypes : Bool
  exclude : List GoType
  excludeFields : List String
  useLiterals : Bool
deriving DecidableEq

/-- An Option modifies the default behaviour of a Printer (repr.go line 57). -/
abbrev PrinterOption := Printer → Printer

/-- Indent mirrors repr.go line 60. -/
def Indent (s : String) : PrinterOption := fun o => { o with indent := s }

/-- NoIndent disables indenting (repr.go line 63). -/
def NoIndent : PrinterOption := Indent ""

/-- OmitEmpty mirrors repr.go lines 68-72. -/
def OmitEmpty (b : Bool) : PrinterOption := fun o => { o with omitEmpty := b }

/-- OmitZero mirrors repr.go lines 79-83. -/
def OmitZero (b : Bool) : PrinterOption := fun o => { o with omitZero := b }

/-- ExplicitTypes mirrors repr.go line 86: the Go function ignores its bool
argument and assigns `true` unconditionally. -/
def ExplicitTypes (_ok : Bool) : PrinterOption := fun o => { o with explicitTypes := true }

/-- IgnoreGoStringer mirrors repr.go line 89. -/
def IgnoreGoStringer : PrinterOption := fun o => { o with ignoreGoStringer := true }

/-- IgnorePrivate mirrors repr.go line 92. -/
def IgnorePrivate : PrinterOption := fun o => { o with ignorePrivate := true }

/-- ScalarLiterals mirrors repr.go line 97. -/
def ScalarLiterals : PrinterOption := fun o => { o with useLiterals := true }

/-- HideType models Hide[T] of repr.go lines 100-106, with the reflected type
passed explicitly. -/
def HideType (t : GoType) : PrinterOption := fun o => { o with exclude := t :: o.exclude }

/-- HideField mirrors repr.go lines 109-113. -/
def HideField (name : String) : PrinterOption :=
  fun o => { o with excludeFields := name :: o.excludeFields }

/-- AlwaysIncludeType mirrors repr.go line 116. -/
def AlwaysIncludeType : PrinterOption := fun o => { o with alwaysIncludeType := true }

/-- New mirrors repr.go lines 134-147: the defaults (two-space indent,
omitEmpty and omitZero on, everything else off/empty), then the options
applied in order. -/
def New (options : List PrinterOption) : Printer :=
  options.foldl (fun p o => o p)
    { indent := "  ", omitEmpty := true, omitZero := true, ignoreGoStringer := false,
      ignorePrivate := false, alwaysIncludeType := false, explicitTypes := false,
      exclude := [], excludeFields := [], useLiterals := false }

/-- nextIndent mirrors Printer.nextIndent (repr.go lines 155-160). -/
def Printer.nextIndent (p : Printer) (indent : String) : String :=
  if p.indent ≠ "" then indent ++ p.indent else ""

/-- thisIndent mirrors Printer.thisIndent (repr.go lines 162-167). -/
def Printer.thisIndent (p : Printer) (indent : String) : String :=
  if p.indent ≠ "" then indent else ""

/-- implementsIsZeroer models `t.Implements(isZeroerType)` (repr.go line
302): in the modelled universe time.Time is the only type with an
`IsZero() bool` method. -/
def implementsIsZeroer (t : GoType) : Bool := t = .structT "time.Time"

/-- isZeroMethodVal models calling the `IsZero()` method on a value whose
type implements it. -/
def isZeroMethodVal : Value → Bool
  | .timeV _ tm => tm.isZero
  | _ => false

/-- entryRel is the order the key sort of repr.go lines 257-259 establishes:
`a` may precede `b` when `Sprint(key b) < Sprint(key a)` is false. -/
def entryRel (a b : Value × Value) : Prop :=
  goLess (sprintValue b.1) (sprintValue a.1) = false

instance : DecidableRel entryRel :=
  fun a b => inferInstanceAs (Decidable (goLess (sprintValue b.1) (sprintValue a.1) = false))

/-- sortEntries models `sort.Slice(keys, less)` with the value of each key
carried along (`v.MapIndex(k)` at line 261 pairs them back): a stable sort by
the `fmt.Sprint` text of the key. -/
def sortEntries (l : List (Value × Value)) : List (Value × Value) :=
  List.insertionSort entryRel l

/-- renderSeq is the element loop of the slice/array case (repr.go lines
233-242): each element is prefixed by the next-level indent and rendered by
`recE`, followed by `,\n` when indentation is on, by `, ` between elements
(none after the last) otherwise. -/
def renderSeq (recE : List Nat → Value → Option (String × List Nat)) (pIndent ni : String) :
    List Nat → List Value → Option (String × List Nat)
  | seen, [] => some ("", seen)
  | seen, e :: rest =>
    match recE seen e with
    | none => none
    | some (s, seen1) =>
      let sep := if pIndent ≠ "" then ",\n" else if rest.isEmpty then "" else ", "
      match renderSeq recE pIndent ni seen1 rest with
      | none => none
      | some (s2, seen2) => some (ni ++ s ++ sep ++ s2, seen2)

/-- renderKVs is the entry loop of the map case (repr.go lines 260-271):
each sorted key is rendered by `recK`, then `: `, then its value by `recV`,
with the same separators as the sequence loop. -/
def renderKVs (recK recV : List Nat → Value → Option (String × List Nat)) (pIndent ni : String) :
    List Nat → List (Value × Value) → Option (String × List Nat)
  | seen, [] => some ("", seen)
  | seen, (k, kv) :: rest =>
    match recK seen k with
    | none => none
    | some (sk, seen1) =>
      match recV seen1 kv with
      | none => none
      | some (sv, seen2) =>
        let sep := if pIndent ≠ "" then ",\n" else if rest.isEmpty then "" else ", "
        match renderKVs recK recV pIndent ni seen2 rest with
        | none => none
        | some (s2, seen3) => some (ni ++ sk ++ ": " ++ sv ++ sep ++ s2, seen3)

/-- renderFields is the field loop of the struct case (repr.go lines
286-346): skips for excluded types/names, private fields under
IgnorePrivate, zero fields under OmitZero (via the IsZero method when the
field type has one), and empty fields under OmitEmpty; a `, ` separator
before a field when one was already emitted and indentation is off; after
the field a `,\n` when indentation is on, suppressed under IgnorePrivate
when no later declared field is exported (the look-ahead of lines 329-342). -/
def renderFields (p : Printer) (recF : List Nat → Value → Bool → Option (String × List Nat))
    (ni : String) :
    List Nat → Bool → List (String × GoType × Value × Bool) → Option (String × List Nat)
  | seen, _previous, [] => some ("", seen)
  | seen, previous, (nm, ft, fv, canI) :: rest =>
    if ft ∈ p.exclude then renderFields p recF ni seen previous rest
    else if nm ∈ p.excludeFields then renderFields p recF ni seen previous rest
    else if p.ignorePrivate && !canI then renderFields p recF ni seen previous rest
    else if p.omitZero && ((implementsIsZeroer ft && isZeroMethodVal fv) || goIsZero fv) then
      renderFields p recF ni seen previous rest
    else if p.omitEmpty && (goIsZero fv || (ft.kind = .slice && goLen fv = 0) ||
        (ft.kind = .map && goLen fv = 0)) then
      renderFields p recF ni seen previous rest
    else
      let sep0 := if previous && p.indent = "" then ", " else ""
      match recF seen fv (ft = anyT) with
      | none => none
      | some (s, seen1) =>
        let tailSep :=
          if p.ignorePrivate && !(rest.any fun f => f.2.2.2) then ""
          else if p.indent ≠ "" then ",\n" else ""
        match renderFields p recF ni seen1 true rest with
        | none => none
        | some (s2, seen2) => some (sep0 ++ ni ++ nm ++ ": " ++ s ++ tailSep ++ s2, seen2)

/-- keepField states when the field loop emits a field: none of the skip
conditions of src/repr.go lines 289-310 fires. -/
def keepField (p : Printer) (fld : String × GoType × Value × Bool) : Bool :=
  !(decide (fld.2.1 ∈ p.exclude)) && !(decide (fld.1 ∈ p.excludeFields)) &&
    !(p.ignorePrivate && !fld.2.2.2) &&
    !(p.omitZero &&
      ((implementsIsZeroer fld.2.1 && isZeroMethodVal fld.2.2.1) || goIsZero fld.2.2.1)) &&
    !(p.omitEmpty && (goIsZero fld.2.2.1 || (fld.2.1.kind = .slice && goLen fld.2.2.1 = 0) ||
      (fld.2.1.kind = .map && goLen fld.2.2.1 = 0)))

/-- fieldsOut is the text the field loop emits for the kept fields, given
each field's name and rendered value: the `, ` separator stands before a
field only when a previous field was emitted and indentation is off, and
`,\n` follows each field when indentation is on. -/
def fieldsOut (p : Printer) (ni : String) : Bool → List (String × String) → String
  | _, [] => ""
  | prev, (nm, s) :: rest =>
    (if prev && p.indent = "" then ", " else "") ++ ni ++ nm ++ ": " ++ s ++
      (if p.indent ≠ "" then ",\n" else "") ++ fieldsOut p ni true rest

/-- reprValue mirrors Printer.reprValue (src/repr.go lines 191-387), with the
emitted text returned and the `seen` map threaded; the fuel indexes recursion
depth (`none` = fuel exhausted).  Each value is marked seen on entry and
erased when its rendering returns (the `defer delete`), after the early
return for an already-seen value (`...`) and before the early return for
nil/invalid values (`nil`). -/
def reprValue (p : Printer) : Nat → List Nat → Value → String → Bool → Bool →
    Option (String × List Nat)
  | 0, _, _, _, _, _ => none
  | fuel + 1, seen, v, indent, showStructType, isAnyValue =>
    if vid v ∈ seen then some ("...", seen)
    else
      let seen0 := vid v :: seen
      let step : Option (String × List Nat) :=
        match v with
        | .invalid _ => some ("nil", seen0)
        | .nilV _ _ => some ("nil", seen0)
        | .scalarV _ t _ sv gv =>
          let value := if p.useLiterals then gv else sv
          if t.typeName ≠ realKindName t.kind || p.alwaysIncludeType || isAnyValue then
            some (t.typeStr ++ "(" ++ value ++ ")", seen0)
          else some (value, seen0)
        | .strV _ t s =>
          if t.typeName ≠ "string" || p.alwaysIncludeType then
            some (t.typeStr ++ "(" ++ goQuote s ++ ")", seen0)
          else some (goQuote s, seen0)
        | .sliceV _ t elems =>
          if t = byteSliceT then
            some ("[]byte(" ++ goQuoteBytes (bytesOf elems) ++ ")", seen0)
          else
            let inI := p.thisIndent indent
            let ni := p.nextIndent indent
            if elems.isEmpty then some (substAny t ++ "\x7b\x7d", seen0)
            else
              let nl := if p.indent ≠ "" then "\n" else ""
              match renderSeq
                  (fun sn e =>
                    reprValue p fuel sn e ni (p.alwaysIncludeType || p.explicitTypes)
                      (t.elemT = anyT))
                  p.indent ni seen0 elems with
              | none => none
              | some (body, seen1) =>
                some (substAny t ++ "\x7b" ++ nl ++ body ++ inI ++ "\x7d", seen1)
        | .mapV _ t entries =>
          let inI := p.thisIndent indent
          let ni := p.nextIndent indent
          let nl := if p.indent ≠ "" && entries.length ≠ 0 then "\n" else ""
          match renderKVs
              (fun sn k =>
                reprValue p fuel sn k ni (p.alwaysIncludeType || p.explicitTypes)
                  (t.keyT = anyT))
              (fun sn kv => reprValue p fuel sn kv ni true (t.elemT = anyT))
              p.indent ni seen0 (sortEntries entries) with
          | none => none
          | some (body, seen1) =>
            some (substAny t ++ "\x7b" ++ nl ++ body ++ inI ++ "\x7d", seen1)
        | .structV _ t fields =>
          let ni := p.nextIndent indent
          let head := if showStructType then substAny t ++ "\x7b" else "\x7b"
          let nl := if p.indent ≠ "" && fields.length ≠ 0 then "\n" else ""
          match renderFields p (fun sn fv anyv => reprValue p fuel sn fv ni true anyv) ni
              seen0 false fields with
          | none => none
          | some (body, seen1) => some (head ++ nl ++ body ++ indent ++ "\x7d", seen1)
        | .ptrV _ _ e =>
          match reprValue p fuel seen0 e indent showStructType false with
          | none => none
          | some (s, seen1) => some ((if showStructType then "&" else "") ++ s, seen1)
        | .ifaceV _ _ e => reprValue p fuel seen0 e indent true true
        | .chanV _ t capacity => some ("make(" ++ substAny t ++ ", " ++ toString capacity ++ ")", seen0)
        | .funcV _ t => some (substAny t, seen0)
        | .timeV _ tm => some (timeToGo tm, seen0)
      match step with
      | none => none
      | some (out, seen2) => some (out, seen2.erase (vid v))

/-- printOne models one iteration of Printer.Print (repr.go line 175): a
fresh seen map, empty indent prefix, type display on, any-context off. -/
def printOne (p : Printer) (fuel : Nat) (v : Value) : Option String :=
  (reprValue p fuel [] v "" true false).map Prod.fst

/-- stringOf models repr.String (repr.go lines 398-404): NoIndent prepended
to the caller's options, then one Print into a buffer. -/
def stringOf (fuel : Nat) (v : Value) (options : List PrinterOption) : Option String :=
  printOne (New (NoIndent :: options)) fuel v

/-- Cell is one node of a (possibly cyclic) value graph, used to settle the
cycle claim: a Lean inductive cannot hold a cyclic value, so here
field/element/pointer edges reference other cells by identity.  The shapes
through which Go reference cycles arise (records, sequences, references) are
modelled, plus nil/scalar/string leaves; the per-shape rendering mirrors the
same lines of reprValue as the tree model. -/
inductive Cell where
  | cNil (t : GoType)
  | cScalar (t : GoType) (n : Int) (sv gv : String)
  | cStr (t : GoType) (s : String)
  | cSlice (t : GoType) (elems : List Nat)
  | cStruct (t : GoType) (fields : List (String × GoType × Nat × Bool))
  | cPtr (t : GoType) (elem : Nat)
deriving DecidableEq

/-- A heap: cells addressed by identity. -/
abbrev Heap := List (Nat × Cell)

/-- Identities a cell references. -/
def cellRefs : Cell → List Nat
  | .cSlice _ elems => elems
  | .cStruct _ fields => fields.map fun f => f.2.2.1
  | .cPtr _ e => [e]
  | _ => []

/-- goIsZeroG models reflect.Value.IsZero over the graph; the fuel only
matters for struct-in-struct nesting, which Go types keep finite. -/
def goIsZeroG (h : Heap) : Nat → Nat → Bool
  | 0, _ => false
  | fuel + 1, id =>
    match h.lookup id with
    | none => false
    | some (.cNil _) => true
    | some (.cScalar _ n _ _) => n = 0
    | some (.cStr _ s) => s = ""
    | some (.cSlice t elems) =>
      if t.kind = .array then elems.all (goIsZeroG h fuel) else false
    | some (.cStruct _ fields) => fields.all fun f => goIsZeroG h fuel f.2.2.1
    | some (.cPtr _ _) => false

/-- Length of a slice cell (reflect.Value.Len). -/
def goLenG (h : Heap) (id : Nat) : Nat :=
  match h.lookup id with
  | some (.cSlice _ elems) => elems.length
  | _ => 0

/-- Byte values of a []byte cell's elements. -/
def bytesOfG (h : Heap) (elems : List Nat) : List Nat :=
  elems.map fun e =>
    match h.lookup e with
    | some (.cScalar _ n _ _) => (n % 256).toNat
    | _ => 0

/-- renderSeqG is renderSeq over cell identities. -/
def renderSeqG (recE : List Nat → Nat → Option (String × List Nat)) (pIndent ni : String) :
    List Nat → List Nat → Option (String × List Nat)
  | seen, [] => some ("", seen)
  | seen, e :: rest =>
    match recE seen e with
    | none => none
    | some (s, seen1) =>
      let sep := if pIndent ≠ "" then ",\n" else if rest.isEmpty then "" else ", "
      match renderSeqG recE pIndent ni seen1 rest with
      | none => none
      | some (s2, seen2) => some (ni ++ s ++ sep ++ s2, seen2)

/-- renderFieldsG is renderFields over cell identities (no graph cell models
a type with an IsZero method, so the method arm of the OmitZero test is
false). -/
def renderFieldsG (h : Heap) (p : Printer)
    (recF : List Nat → Nat → Bool → Option (String × List Nat)) (ni : String) :
    List Nat → Bool → List (String × GoType × Nat × Bool) → Option (String × List Nat)
  | seen, _previous, [] => some ("", seen)
  | seen, previous, (nm, ft, fv, canI) :: rest =>
    if ft ∈ p.exclude then renderFieldsG h p recF ni seen previous rest
    else if nm ∈ p.excludeFields then renderFieldsG h p recF ni seen previous rest
    else if p.ignorePrivate && !canI then renderFieldsG h p recF ni seen previous rest
    else if p.omitZero && goIsZeroG h (h.length + 1) fv then
      renderFieldsG h p recF ni seen previous rest
    else if p.omitEmpty && (goIsZeroG h (h.length + 1) fv ||
        (ft.kind = .slice && goLenG h fv = 0) || (ft.kind = .map && goLenG h fv = 0)) then
      renderFieldsG h p recF ni seen previous rest
    else
      let sep0 := if previous && p.indent = "" then ", " else ""
      match recF seen fv (ft = anyT) with
      | none => none
      | some (s, seen1) =>
        let tailSep :=
          if p.ignorePrivate && !(rest.any fun f => f.2.2.2) then ""
          else if p.indent ≠ "" then ",\n" else ""
        match renderFieldsG h p recF ni seen1 true rest with
        | none => none
        | some (s2, seen2) => some (sep0 ++ ni ++ nm ++ ": " ++ s ++ tailSep ++ s2, seen2)

/-- reprG is reprValue over the cell graph: the same seen/erase discipline
and the same per-shape emission, with children reached through the heap. -/
def reprG (h : Heap) (p : Printer) : Nat → List Nat → Nat → String → Bool → Bool →
    Option (String × List Nat)
  | 0, _, _, _, _, _ => none
  | fuel + 1, seen, id, indent, showStructType, isAnyValue =>
    if id ∈ seen then some ("...", seen)
    else
      match h.lookup id with
      | none => none
      | some c =>
        let seen0 := id :: seen
        let step : Option (String × List Nat) :=
          match c with
          | .cNil _ => some ("nil", seen0)
          | .cScalar t _ sv gv =>
            let value := if p.useLiterals then gv else sv
            if t.typeName ≠ realKindName t.kind || p.alwaysIncludeType || isAnyValue then
              some (t.typeStr ++ "(" ++ value ++ ")", seen0)
            else some (value, seen0)
          | .cStr t s =>
            if t.typeName ≠ "string" || p.alwaysIncludeType then
              some (t.typeStr ++ "(" ++ goQuote s ++ ")", seen0)
            else some (goQuote s, seen0)
          | .cSlice t elems =>
            if t = byteSliceT then
              some ("[]byte(" ++ goQuoteBytes (bytesOfG h elems) ++ ")", seen0)
            else
              let inI := p.thisIndent indent
              let ni := p.nextIndent indent
              if elems.isEmpty then some (substAny t ++ "\x7b\x7d", seen0)
              else
                let nl := if p.indent ≠ "" then "\n" else ""
                match renderSeqG
                    (fun sn e =>
                      reprG h p fuel sn e ni (p.alwaysIncludeType || p.explicitTypes)
                        (t.elemT = anyT))
                    p.indent ni seen0 elems with
                | none => none
                | some (body, seen1) =>
                  some (substAny t ++ "\x7b" ++ nl ++ body ++ inI ++ "\x7d", seen1)
          | .cStruct t fields =>
            let ni := p.nextIndent indent
            let head := if showStructType then substAny t ++ "\x7b" else "\x7b"
            let nl := if p.indent ≠ "" && fields.length ≠ 0 then "\n" else ""
            match renderFieldsG h p (fun sn fv anyv => reprG h p fuel sn fv ni true anyv) ni
                seen0 false fields with
            | none => none
            | some (body, seen1) => some (head ++ nl ++ body ++ indent ++ "\x7d", seen1)
          | .cPtr _ e =>
            match reprG h p fuel seen0 e indent showStructType false with
            | none => none
            | some (s, seen1) => some ((if showStructType then "&" else "") ++ s, seen1)
        match step with
        | none => none
        | some (out, seen2) => some (out, seen2.erase id)

/-- A heap is well formed when cell identities are unique and every
referenced identity resolves. -/
def heapWF (h : Heap) : Prop :=
  (h.map Prod.fst).Nodup ∧ ∀ pc ∈ h, ∀ r ∈ cellRefs pc.2, (h.lookup r).isSome

instance (h : Heap) : Decidable (heapWF h) :=
  inferInstanceAs
    (Decidable ((h.map Prod.fst).Nodup ∧ ∀ pc ∈ h, ∀ r ∈ cellRefs pc.2, (h.lookup r).isSome))

/-- Number of heap identities not yet on the recursion path: the termination
measure of the cycle-guarded traversal. -/
def unseenCount (h : Heap) (seen : List Nat) : Nat :=
  ((h.map Prod.fst).filter fun i => i ∉ seen).length

/-- dateArgs is the comma-separated year-through-nanosecond component list of
the time.Date constructor call timeToGo emits. -/
def dateArgs (t : GoTime) : String :=
  toString t.year ++ ", " ++ toString t.month ++ ", " ++ toString t.day ++ ", " ++
    toString t.hour ++ ", " ++ toString t.minute ++ ", " ++ toString t.second ++ ", " ++
    toString t.nanosecond

/-- zoneArg is the zone argument timeToGo resolves (spec section 4.4):
sentinels for the UTC/Local/nil locations, a FixedZone constructor call
embedding the abbreviation and offset otherwise. -/
def zoneArg (t : GoTime) : String :=
  match t.loc with
  | .locNil => "nil"
  | .utc => "time.UTC"
  | .localLoc => "time.Local"
  | .fixedZone _ _ =>
    "time.FixedZone(" ++ goQuote t.zoneName ++ ", " ++ toString t.zoneOffset ++ ")"
  | .namedZone _ =>
    "time.FixedZone(" ++ goQuote t.zoneName ++ ", " ++ toString t.zoneOffset ++ ")"

/-- noNL holds when a string contains no newline character. -/
def noNL (s : String) : Bool := s.data.all fun c => c ≠ '\n'

/-- cleanType holds when no name embedded in a type contains a newline
(every real Go type name satisfies this). -/
def cleanType : GoType → Bool
  | .prim _ => true
  | .named str nm u => noNL str && noNL nm && cleanType u
  | .slice e => cleanType e
  | .array _ e => cleanType e
  | .mapT k v => cleanType k && cleanType v
  | .chanT d e => noNL d && cleanType e
  | .funcT nm ins outs => noNL nm && ins.all noNL && outs.all noNL
  | .ptrT e => cleanType e
  | .ifaceT s => noNL s
  | .structT s => noNL s

/-- The predeclared string type. -/
def strT : GoType := .prim .string

/-- The predeclared int type. -/
def intT : GoType := .prim .int

/-- The default Printer (repr.Print / repr.Println): two-space indent. -/
def defaultP : Printer := New []

/-- The Printer repr.String uses: defaults with indentation disabled. -/
def noIndentP : Printer := New [NoIndent]

/-- Key/value entry `any(1): 10` of the tied-key example map. -/
def tieEntryInt : Value × Value :=
  (.ifaceV 2 anyT (.scalarV 3 intT 1 "1" "1"), .scalarV 4 intT 10 "10" "10")

/-- Key/value entry `any("1"): 20` of the tied-key example map: its key's
fmt.Sprint text equals that of `tieEntryInt`. -/
def tieEntryStr : Value × Value :=
  (.ifaceV 5 anyT (.strV 6 strT "1"), .scalarV 7 intT 20 "20" "20")

/-- The map `map[any]int\x7b1: 10, "1": 20\x7d` under one enumeration order. -/
def tieMapA : Value := .mapV 1 (.mapT anyT intT) [tieEntryInt, tieEntryStr]

/-- The same map under the other enumeration order. -/
def tieMapB : Value := .mapV 1 (.mapT anyT intT) [tieEntryStr, tieEntryInt]

/-- Entries of `map[string]int\x7b"b": 3, "a": 1, "c": 5\x7d` (TestReprMap) in
one enumeration order. -/
def abcEntries : List (Value × Value) :=
  [(.strV 2 strT "b", .scalarV 3 intT 3 "3" "3"),
   (.strV 4 strT "a", .scalarV 5 intT 1 "1" "1"),
   (.strV 6 strT "c", .scalarV 7 intT 5 "5" "5")]

/-- The same entries in another enumeration order (the first two swapped). -/
def abcEntriesR : List (Value × Value) :=
  [(.strV 4 strT "a", .scalarV 5 intT 1 "1" "1"),
   (.strV 2 strT "b", .scalarV 3 intT 3 "3" "3"),
   (.strV 6 strT "c", .scalarV 7 intT 5 "5" "5")]

/-- The slice `[]string\x7b"a", "b"\x7d`. -/
def exStrSlice : Value :=
  .sliceV 1 (.slice strT) [.strV 2 strT "a", .strV 3 strT "b"]

/-- The slice `[]error\x7bnil\x7d`: one nil interface-typed element. -/
def exNilIfaceSlice : Value := .sliceV 1 (.slice (.ifaceT "error")) [.nilV 2 (.ifaceT "error")]

/-- The array `[2]uint8\x7b1, 2\x7d`: a fixed-length byte sequence whose type
is not the unnamed []uint8. -/
def exByteArray : Value :=
  .sliceV 1 (.array 2 (.prim .uint8))
    [.scalarV 2 (.prim .uint8) 1 "1" "0x1", .scalarV 3 (.prim .uint8) 2 "2" "0x2"]

/-- The slice `[]map[string]int\x7b\x7b\x7d\x7d`: a non-nil empty map nested
one level down. -/
def exNestedEmptyMap : Value :=
  .sliceV 1 (.slice (.mapT strT intT)) [.mapV 2 (.mapT strT intT) []]

/-- The time of TestReprTime built with time.FixedZone("Repr", 10800). -/
def tmFixed : GoTime :=
  { year := 2001, month := 5, day := 13, hour := 21, minute := 15, second := 54,
    nanosecond := 987654, loc := .fixedZone "Repr" 10800, zoneName := "Repr",
    zoneOffset := 10800, isZero := false }

/-- The same instant with a loaded named zone whose abbreviation and offset
match tmFixed's. -/
def tmNamed : GoTime :=
  { year := 2001, month := 5, day := 13, hour := 21, minute := 15, second := 54,
    nanosecond := 987654, loc := .namedZone "Fake/Repr", zoneName := "Repr",
    zoneOffset := 10800, isZero := false }

/-- The struct type of TestRecursiveIssue3's local `data` type. -/
def dataT : GoType := .structT "repr.data"

/-- The cyclic heap of TestRecursiveIssue3: `root = &data\x7bchildren:
[]*data\x7bchild\x7d\x7d; child.parent = root`.  Cell 1 is the root pointer,
cell 2 the root struct, cell 7 the child's parent pointer whose target is
cell 2 again — the cycle. -/
def cycHeap : Heap :=
  [(1, .cPtr (.ptrT dataT) 2),
   (2, .cStruct dataT
      [("parent", .ptrT dataT, 3, false), ("children", .slice (.ptrT dataT), 4, false)]),
   (3, .cNil (.ptrT dataT)),
   (4, .cSlice (.slice (.ptrT dataT)) [5]),
   (5, .cPtr (.ptrT dataT) 6),
   (6, .cStruct dataT
      [("parent", .ptrT dataT, 7, false), ("children", .slice (.ptrT dataT), 8, false)]),
   (7, .cPtr (.ptrT dataT) 2),
   (8, .cNil (.slice (.ptrT dataT)))]

theorem charsLt_cons (a b : Char) (as bs : List Char) :
    charsLt (a :: as) (b :: bs) =
      (decide (a.toNat < b.toNat) || (decide (a.toNat = b.toNat) && charsLt as bs)) := by
  simp only [charsLt]
  by_cases h1 : a.toNat < b.toNat
  · simp [h1]
  · by_cases h2 : b.toNat < a.toNat
    · simp [h1, h2]
      omega
    · have h3 : a.toNat = b.toNat := by omega
      simp [h1, h2, h3]

theorem charsLt_irrefl : ∀ l : List Char, charsLt l l = false := by
  intro l
  induction l with
  | nil => rfl
  | cons a as ih => simp [charsLt_cons, ih]

theorem charsLt_trans :
    ∀ l1 l2 l3 : List Char, charsLt l1 l2 = true → charsLt l2 l3 = true →
      charsLt l1 l3 = true := by
  intro l1
  induction l1 with
  | nil =>
    intro l2 l3 h12 h23
    cases l2 with
    | nil => simp [charsLt] at h12
    | cons b bs =>
      cases l3 with
      | nil => simp [charsLt] at h23
      | cons c cs => simp [charsLt]
  | cons a as ih =>
    intro l2 l3 h12 h23
    cases l2 with
    | nil => simp [charsLt] at h12
    | cons b bs =>
      cases l3 with
      | nil => simp [charsLt] at h23
      | cons c cs =>
        simp only [charsLt_cons, Bool.or_eq_true, decide_eq_true_eq, Bool.and_eq_true] at *
        rcases h12 with h12 | ⟨h12e, h12r⟩
        · rcases h23 with h23 | ⟨h23e, h23r⟩
          · exact Or.inl (by omega)
          · exact Or.inl (by omega)
        · rcases h23 with h23 | ⟨h23e, h23r⟩
          · exact Or.inl (by omega)
          · exact Or.inr ⟨by omega, ih bs cs h12r h23r⟩

theorem charsLt_connex :
    ∀ l1 l2 : List Char, charsLt l1 l2 = false → charsLt l2 l1 = false → l1 = l2 := by
  intro l1
  induction l1 with
  | nil =>
    intro l2 h12 h21
    cases l2 with
    | nil => rfl
    | cons b bs => simp [charsLt] at h12
  | cons a as ih =>
    intro l2 h12 h21
    cases l2 with
    | nil => simp [charsLt] at h21
    | cons b bs =>
      simp only [charsLt_cons, Bool.or_eq_false_iff, decide_eq_false_iff_not,
        Bool.and_eq_false_iff, decide_eq_true_eq] at h12 h21
      have hab : a.toNat = b.toNat := by omega
      have heq : a = b := by
        rw [← Char.ofNat_toNat a, ← Char.ofNat_toNat b, hab]
      subst heq
      rcases h12.2 with h | h
      · omega
      · rcases h21.2 with h2 | h2
        · omega
        · exact congrArg (a :: ·) (ih bs h h2)

theorem goLess_irrefl (s : String) : goLess s s = false := charsLt_irrefl s.data

theorem goLess_trans {s1 s2 s3 : String} (h12 : goLess s1 s2 = true)
    (h23 : goLess s2 s3 = true) : goLess s1 s3 = true :=
  charsLt_trans s1.data s2.data s3.data h12 h23

theorem goLess_connex {s1 s2 : String} (h12 : goLess s1 s2 = false)
    (h21 : goLess s2 s1 = false) : s1 = s2 := by
  cases s1 with
  | mk d1 =>
    cases s2 with
    | mk d2 => exact congrArg String.mk (charsLt_connex d1 d2 h12 h21)

theorem goLess_asymm {s1 s2 : String} (h : goLess s1 s2 = true) : goLess s2 s1 = false := by
  by_contra hne
  have h21 : goLess s2 s1 = true := by
    cases hg : goLess s2 s1
    · exact absurd hg hne
    · rfl
  have hcontra := goLess_trans h h21
  rw [goLess_irrefl] at hcontra
  exact Bool.noConfusion hcontra

instance : IsTotal (Value × Value) entryRel :=
  ⟨by
    intro a b
    unfold entryRel
    cases hab : goLess (sprintValue b.1) (sprintValue a.1)
    · exact Or.inl rfl
    · exact Or.inr (goLess_asymm hab)⟩

instance : IsTrans (Value × Value) entryRel :=
  ⟨by
    intro a b c hab hbc
    unfold entryRel at *
    by_contra hca
    have hca' : goLess (sprintValue c.1) (sprintValue a.1) = true := by
      cases hg : goLess (sprintValue c.1) (sprintValue a.1)
      · exact absurd hg hca
      · rfl
    by_cases hcb : goLess (sprintValue c.1) (sprintValue b.1) = true
    · exact Bool.noConfusion (hcb.symm.trans hbc)
    · have hcb' : goLess (sprintValue c.1) (sprintValue b.1) = false := by
        cases hg : goLess (sprintValue c.1) (sprintValue b.1)
        · rfl
        · exact absurd hg hcb
      by_cases hbc2 : goLess (sprintValue b.1) (sprintValue c.1) = true
      · have := goLess_trans hbc2 hca'
        exact Bool.noConfusion (this.symm.trans hab)
      · have hbc2' : goLess (sprintValue b.1) (sprintValue c.1) = false := by
          cases hg : goLess (sprintValue b.1) (sprintValue c.1)
          · rfl
          · exact absurd hg hbc2
        have hcb_eq : sprintValue c.1 = sprintValue b.1 := goLess_connex hcb' hbc2'
        rw [hcb_eq] at hca'
        exact Bool.noConfusion (hca'.symm.trans hab)⟩

theorem renderSeq_seen {recE : List Nat → Value → Option (String × List Nat)}
    {pIndent ni : String}
    (hrec : ∀ sn e out sn', recE sn e = some (out, sn') → sn' = sn) :
    ∀ l seen out seen', renderSeq recE pIndent ni seen l = some (out, seen') → seen' = seen := by
  intro l
  induction l with
  | nil =>
    intro seen out seen' h
    simp [renderSeq] at h
    exact h.2.symm
  | cons e rest ih =>
    intro seen out seen' h
    cases he : recE seen e with
    | none => simp [renderSeq, he] at h
    | some pr =>
      obtain ⟨s, seen1⟩ := pr
      cases hr : renderSeq recE pIndent ni seen1 rest with
      | none => simp [renderSeq, he, hr] at h
      | some pr2 =>
        obtain ⟨s2, seen2⟩ := pr2
        simp [renderSeq, he, hr] at h
        rw [← h.2, ih seen1 s2 seen2 hr, hrec seen e s seen1 he]

theorem renderKVs_seen {recK recV : List Nat → Value → Option (String × List Nat)}
    {pIndent ni : String}
    (hrecK : ∀ sn e out sn', recK sn e = some (out, sn') → sn' = sn)
    (hrecV : ∀ sn e out sn', recV sn e = some (out, sn') → sn' = sn) :
    ∀ l seen out seen', renderKVs recK recV pIndent ni seen l = some (out, seen') →
      seen' = seen := by
  intro l
  induction l with
  | nil =>
    intro seen out seen' h
    simp [renderKVs] at h
    exact h.2.symm
  | cons e rest ih =>
    obtain ⟨k, kv⟩ := e
    intro seen out seen' h
    cases hk : recK seen k with
    | none => simp [renderKVs, hk] at h
    | some prk =>
      obtain ⟨sk, seen1⟩ := prk
      cases hv : recV seen1 kv with
      | none => simp [renderKVs, hk, hv] at h
      | some prv =>
        obtain ⟨sv, seen2⟩ := prv
        cases hr : renderKVs recK recV pIndent ni seen2 rest with
        | none => simp [renderKVs, hk, hv, hr] at h
        | some pr2 =>
          obtain ⟨s2, seen3⟩ := pr2
          simp [renderKVs, hk, hv, hr] at h
          rw [← h.2, ih seen2 s2 seen3 hr, hrecV seen1 kv sv seen2 hv,
            hrecK seen k sk seen1 hk]

theorem renderFields_seen {p : Printer}
    {recF : List Nat → Value → Bool → Option (String × List Nat)} {ni : String}
    (hrec : ∀ sn fv anyv out sn', recF sn fv anyv = some (out, sn') → sn' = sn) :
    ∀ l seen prev out seen', renderFields p recF ni seen prev l = some (out, seen') →
      seen' = seen := by
  intro l
  induction l with
  | nil =>
    intro seen prev out seen' h
    simp [renderFields] at h
    exact h.2.symm
  | cons fld rest ih =>
    obtain ⟨nm, ft, fv, canI⟩ := fld
    intro seen prev out seen' h
    by_cases h1 : ft ∈ p.exclude
    · simp only [renderFields, if_pos h1] at h
      exact ih seen prev out seen' h
    · by_cases h2 : nm ∈ p.excludeFields
      · simp only [renderFields, if_neg h1, if_pos h2] at h
        exact ih seen prev out seen' h
      · by_cases h3 : p.ignorePrivate && !canI
        · simp only [renderFields, if_neg h1, if_neg h2, if_pos h3] at h
          exact ih seen prev out seen' h
        · by_cases h4 : p.omitZero &&
              ((implementsIsZeroer ft && isZeroMethodVal fv) || goIsZero fv)
          · simp only [renderFields, if_neg h1, if_neg h2, if_neg h3, if_pos h4] at h
            exact ih seen prev out seen' h
          · by_cases h5 : p.omitEmpty && (goIsZero fv || (ft.kind = .slice && goLen fv = 0) ||
                (ft.kind = .map && goLen fv = 0))
            · simp only [renderFields, if_neg h1, if_neg h2, if_neg h3, if_neg h4,
                if_pos h5] at h
              exact ih seen prev out seen' h
            · cases hf : recF seen fv (ft = anyT) with
              | none =>
                simp only [renderFields, if_neg h1, if_neg h2, if_neg h3, if_neg h4,
                  if_neg h5, hf] at h
                exact Option.noConfusion h
              | some prf =>
                obtain ⟨s, seen1⟩ := prf
                cases hr : renderFields p recF ni seen1 true rest with
                | none =>
                  simp only [renderFields, if_neg h1, if_neg h2, if_neg h3, if_neg h4,
                    if_neg h5, hf, hr] at h
                  exact Option.noConfusion h
                | some pr2 =>
                  obtain ⟨s2, seen2⟩ := pr2
                  simp only [renderFields, if_neg h1, if_neg h2, if_neg h3, if_neg h4,
                    if_neg h5, hf, hr, Option.some.injEq, Prod.mk.injEq] at h
                  rw [← h.2, ih seen1 true s2 seen2 hr, hrec seen fv (ft = anyT) s seen1 hf]

theorem reprValue_seen :
    ∀ fuel p seen v indent sst anyv out seen',
      reprValue p fuel seen v indent sst anyv = some (out, seen') → seen' = seen := by
  intro fuel
  induction fuel with
  | zero =>
    intro p seen v indent sst anyv out seen' h
    exact Option.noConfusion h
  | succ fuel ih =>
    intro p seen v indent sst anyv out seen' h
    by_cases hv : vid v ∈ seen
    · simp only [reprValue, if_pos hv, Option.some.injEq, Prod.mk.injEq] at h
      exact h.2.symm
    · cases v with
      | invalid id =>
        simp only [vid] at hv
        simp only [reprValue, vid, if_neg hv, List.erase_cons_head, Option.some.injEq,
          Prod.mk.injEq] at h
        exact h.2.symm
      | nilV id t =>
        simp only [vid] at hv
        simp only [reprValue, vid, if_neg hv, List.erase_cons_head, Option.some.injEq,
          Prod.mk.injEq] at h
        exact h.2.symm
      | scalarV id t n sv gv =>
        simp only [vid] at hv
        simp only [reprValue, vid, if_neg hv] at h
        by_cases hc : (decide (t.typeName ≠ realKindName t.kind) || p.alwaysIncludeType ||
            anyv) = true
        · rw [if_pos hc] at h
          simp only [List.erase_cons_head, Option.some.injEq, Prod.mk.injEq] at h
          exact h.2.symm
        · rw [if_neg hc] at h
          simp only [List.erase_cons_head, Option.some.injEq, Prod.mk.injEq] at h
          exact h.2.symm
      | strV id t s =>
        simp only [vid] at hv
        simp only [reprValue, vid, if_neg hv] at h
        by_cases hc : (decide (t.typeName ≠ "string") || p.alwaysIncludeType) = true
        · rw [if_pos hc] at h
          simp only [List.erase_cons_head, Option.some.injEq, Prod.mk.injEq] at h
          exact h.2.symm
        · rw [if_neg hc] at h
          simp only [List.erase_cons_head, Option.some.injEq, Prod.mk.injEq] at h
          exact h.2.symm
      | chanV id t capacity =>
        simp only [vid] at hv
        simp only [reprValue, vid, if_neg hv, List.erase_cons_head, Option.some.injEq,
          Prod.mk.injEq] at h
        exact h.2.symm
      | funcV id t =>
        simp only [vid] at hv
        simp only [reprValue, vid, if_neg hv, List.erase_cons_head, Option.some.injEq,
          Prod.mk.injEq] at h
        exact h.2.symm
      | timeV id tm =>
        simp only [vid] at hv
        simp only [reprValue, vid, if_neg hv, List.erase_cons_head, Option.some.injEq,
          Prod.mk.injEq] at h
        exact h.2.symm
      | ptrV id t e =>
        simp only [vid] at hv
        simp only [reprValue, vid, if_neg hv] at h
        cases he : reprValue p fuel (id :: seen) e indent sst false with
        | none => rw [he] at h; exact Option.noConfusion h
        | some pr =>
          obtain ⟨s, seen1⟩ := pr
          rw [he] at h
          have h1 : seen1 = id :: seen := ih p (id :: seen) e indent sst false s seen1 he
          simp only [h1, List.erase_cons_head, Option.some.injEq, Prod.mk.injEq] at h
          exact h.2.symm
      | ifaceV id t e =>
        simp only [vid] at hv
        simp only [reprValue, vid, if_neg hv] at h
        cases he : reprValue p fuel (id :: seen) e indent true true with
        | none => rw [he] at h; exact Option.noConfusion h
        | some pr =>
          obtain ⟨s, seen1⟩ := pr
          rw [he] at h
          have h1 : seen1 = id :: seen := ih p (id :: seen) e indent true true s seen1 he
          simp only [h1, List.erase_cons_head, Option.some.injEq, Prod.mk.injEq] at h
          exact h.2.symm
      | sliceV id t elems =>
        simp only [vid] at hv
        simp only [reprValue, vid, if_neg hv] at h
        by_cases hb : t = byteSliceT
        · rw [if_pos hb] at h
          simp only [List.erase_cons_head, Option.some.injEq, Prod.mk.injEq] at h
          exact h.2.symm
        · rw [if_neg hb] at h
          by_cases hemp : elems.isEmpty
          · rw [if_pos hemp] at h
            simp only [List.erase_cons_head, Option.some.injEq, Prod.mk.injEq] at h
            exact h.2.symm
          · rw [if_neg hemp] at h
            cases hr : renderSeq
                (fun sn e =>
                  reprValue p fuel sn e (p.nextIndent indent)
                    (p.alwaysIncludeType || p.explicitTypes) (t.elemT = anyT))
                p.indent (p.nextIndent indent) (id :: seen) elems with
            | none => rw [hr] at h; exact Option.noConfusion h
            | some pr =>
              obtain ⟨body, seen1⟩ := pr
              rw [hr] at h
              have h1 : seen1 = id :: seen :=
                renderSeq_seen
                  (fun sn e o sn' hh => ih p sn e (p.nextIndent indent)
                    (p.alwaysIncludeType || p.explicitTypes) (t.elemT = anyT) o sn' hh)
                  elems (id :: seen) body seen1 hr
              simp only [h1, List.erase_cons_head, Option.some.injEq, Prod.mk.injEq] at h
              exact h.2.symm
      | mapV id t entries =>
        simp only [vid] at hv
        simp only [reprValue, vid, if_neg hv] at h
        cases hr : renderKVs
            (fun sn k =>
              reprValue p fuel sn k (p.nextIndent indent)
                (p.alwaysIncludeType || p.explicitTypes) (t.keyT = anyT))
            (fun sn kv => reprValue p fuel sn kv (p.nextIndent indent) true (t.elemT = anyT))
            p.indent (p.nextIndent indent) (id :: seen) (sortEntries entries) with
        | none => rw [hr] at h; exact Option.noConfusion h
        | some pr =>
          obtain ⟨body, seen1⟩ := pr
          rw [hr] at h
          have h1 : seen1 = id :: seen :=
            renderKVs_seen
              (fun sn k o sn' hh => ih p sn k (p.nextIndent indent)
                (p.alwaysIncludeType || p.explicitTypes) (t.keyT = anyT) o sn' hh)
              (fun sn kv o sn' hh => ih p sn kv (p.nextIndent indent) true
                (t.elemT = anyT) o sn' hh)
              (sortEntries entries) (id :: seen) body seen1 hr
          simp only [h1, List.erase_cons_head, Option.some.injEq, Prod.mk.injEq] at h
          exact h.2.symm
      | structV id t fields =>
        simp only [vid] at hv
        simp only [reprValue, vid, if_neg hv] at h
        cases hr : renderFields p
            (fun sn fv anyv2 => reprValue p fuel sn fv (p.nextIndent indent) true anyv2)
            (p.nextIndent indent) (id :: seen) false fields with
        | none => rw [hr] at h; exact Option.noConfusion h
        | some pr =>
          obtain ⟨body, seen1⟩ := pr
          rw [hr] at h
          have h1 : seen1 = id :: seen :=
            renderFields_seen
              (fun sn fv anyv2 o sn' hh =>
                ih p sn fv (p.nextIndent indent) true anyv2 o sn' hh)
              fields (id :: seen) false body seen1 hr
          simp only [h1, List.erase_cons_head, Option.some.injEq, Prod.mk.injEq] at h
          exact h.2.symm

/-- Claim C10 (confirmed): the ExplicitTypes option constructor sets the
explicit-types flag to true unconditionally, ignoring its boolean argument;
in particular applying it with `false` to a freshly constructed Printer still
enables explicit typing although the documented default is off. -/
theorem C10_explicitTypes_ignores_argument :
    (∀ (b : Bool) (p : Printer), (ExplicitTypes b p).explicitTypes = true) ∧
      (New []).explicitTypes = false ∧
      (ExplicitTypes false (New [])).explicitTypes = true :=
  ⟨fun _ _ => rfl, rfl, rfl⟩

/-- Claim C5, counterexample: a nil interface-typed slot (here an element of
`[]error`) renders as the plain literal `nil`, not as the typed-nil literal
`error(nil)` the claim requires. -/
theorem C5_counterexample :
    stringOf 10 exNilIfaceSlice [] = some "[]error\x7bnil\x7d" ∧
      stringOf 10 exNilIfaceSlice [] ≠ some "[]error\x7berror(nil)\x7d" := by
  decide

/-- Claim C5 (corrected): an interface-typed slot holding no value renders as
the untyped literal `nil` (the nil check of repr.go line 199 returns before
the typed-nil branch of line 368, which is unreachable); a slot holding a
concrete value unwraps it and recurses with concrete-type display and
open-union context both forced on. -/
theorem C5_amended :
    (∀ p fuel seen id t indent sst anyv, id ∉ seen →
      reprValue p (fuel + 1) seen (.nilV id t) indent sst anyv = some ("nil", seen)) ∧
    (∀ p fuel seen id t e indent sst anyv, id ∉ seen →
      reprValue p (fuel + 1) seen (.ifaceV id t e) indent sst anyv =
        (reprValue p fuel (id :: seen) e indent true true).map
          fun r => (r.1, r.2.erase id)) := by
  constructor
  · intro p fuel seen id t indent sst anyv hid
    simp [reprValue, vid, if_neg hid]
  · intro p fuel seen id t e indent sst anyv hid
    simp only [reprValue, vid, if_neg hid]
    cases reprValue p fuel (id :: seen) e indent true true with
    | none => rfl
    | some pr => rfl

/-- Claim C5 witness: both parts applied to the concrete nil and non-nil
interface slots of the examples. -/
theorem C5_amended_witness :
    reprValue noIndentP 10 [] (.nilV 2 (.ifaceT "error")) "" false true = some ("nil", []) ∧
      reprValue noIndentP 10 [] (.ifaceV 5 anyT (.strV 6 strT "1")) "" false true =
        (reprValue noIndentP 9 [5] (.strV 6 strT "1") "" true true).map
          fun r => (r.1, r.2.erase 5) :=
  ⟨C5_amended.1 noIndentP 9 [] 2 (.ifaceT "error") "" false true (by decide),
   C5_amended.2 noIndentP 9 [] 5 anyT (.strV 6 strT "1") "" false true (by decide)⟩

/-- Claim C6, counterexample: the array `[2]uint8\x7b1, 2\x7d` is a contiguous
sequence whose element type is exactly the 8-bit byte type, yet it renders as
a bracketed element list, not as a []byte constructor: the short-circuit of
repr.go line 205 requires the whole type to equal the unnamed `[]uint8`. -/
theorem C6_counterexample :
    stringOf 10 exByteArray [] = some "[2]uint8\x7b1, 2\x7d" ∧
      stringOf 10 exByteArray [] ≠
        some ("[]byte(" ++ goQuoteBytes (bytesOf
          [.scalarV 2 (.prim .uint8) 1 "1" "0x1",
            .scalarV 3 (.prim .uint8) 2 "2" "0x2"]) ++ ")") := by
  decide

/-- Claim C6 (corrected): a non-nil value whose type is exactly the unnamed
slice-of-bytes type `[]uint8` renders as a quoted, escaped text literal
wrapped in the []byte constructor, never as a bracketed element list; byte
sequences of other types (byte arrays, named byte-slice types) follow the
generic sequence rule, and a nil byte slice renders as `nil`. -/
theorem C6_amended :
    (∀ p fuel seen id elems indent sst anyv, id ∉ seen →
      reprValue p (fuel + 1) seen (.sliceV id byteSliceT elems) indent sst anyv =
        some ("[]byte(" ++ goQuoteBytes (bytesOf elems) ++ ")", seen)) ∧
    (∀ p fuel seen id indent sst anyv, id ∉ seen →
      reprValue p (fuel + 1) seen (.nilV id byteSliceT) indent sst anyv =
        some ("nil", seen)) := by
  constructor
  · intro p fuel seen id elems indent sst anyv hid
    simp [reprValue, vid, if_neg hid]
  · intro p fuel seen id indent sst anyv hid
    simp [reprValue, vid, if_neg hid]

/-- Claim C6 witness: the []byte rule applied to the bytes 1, 2, 3 of
TestReprByteArray, and to a nil byte slice. -/
theorem C6_amended_witness :
    reprValue noIndentP 10 [] (.sliceV 1 byteSliceT
        [.scalarV 2 (.prim .uint8) 1 "1" "0x1", .scalarV 3 (.prim .uint8) 2 "2" "0x2",
          .scalarV 4 (.prim .uint8) 3 "3" "0x3"]) "" true false =
      some ("[]byte(\"\\x01\\x02\\x03\")", []) ∧
      reprValue noIndentP 10 [] (.nilV 9 byteSliceT) "" true false = some ("nil", []) := by
  constructor
  · have h := C6_amended.1 noIndentP 9 [] 1
      [Value.scalarV 2 (.prim .uint8) 1 "1" "0x1", Value.scalarV 3 (.prim .uint8) 2 "2" "0x2",
        Value.scalarV 4 (.prim .uint8) 3 "3" "0x3"] "" true false (by decide)
    rw [h]
    decide
  · exact C6_amended.2 noIndentP 9 [] 9 "" true false (by decide)

/-- Claim C8, counterexample: with the scalar-literals option enabled, a
plain `int` value renders unwrapped as `5`, not in the constructor-call form
`int(5)` the claim requires for every scalar under that option. -/
theorem C8_counterexample :
    stringOf 10 (.scalarV 1 intT 5 "5" "5") [ScalarLiterals] = some "5" ∧
      stringOf 10 (.scalarV 1 intT 5 "5" "5") [ScalarLiterals] ≠ some "int(5)" := by
  decide

/-- Claim C8 (corrected): for an other-scalar value the scalar-literals
option only switches the emitted text to the Go-syntax literal form (`%#v`,
bypassing any custom stringer); the `TypeName(value)` wrapping occurs exactly
when the concrete named type differs from its underlying primitive kind's
canonical name, or always-include-type is on, or the surrounding context is
an open-union slot — independently of the scalar-literals option. -/
theorem C8_amended :
    ∀ p fuel seen id t n sv gv indent sst anyv, id ∉ seen →
      reprValue p (fuel + 1) seen (.scalarV id t n sv gv) indent sst anyv =
        (if t.typeName ≠ realKindName t.kind || p.alwaysIncludeType || anyv then
          some (t.typeStr ++ "(" ++ (if p.useLiterals then gv else sv) ++ ")", seen)
        else some ((if p.useLiterals then gv else sv), seen)) := by
  intro p fuel seen id t n sv gv indent sst anyv hid
  simp only [reprValue, vid, if_neg hid]
  by_cases hc : (decide (t.typeName ≠ realKindName t.kind) || p.alwaysIncludeType ||
      anyv) = true
  · rw [if_pos hc, if_pos hc]
    simp [List.erase_cons_head]
  · rw [if_neg hc, if_neg hc]
    simp [List.erase_cons_head]

/-- Claim C8 witness: the rule applied to a plain int under scalar-literals
(unwrapped) — the wrapping condition evaluates to false there. -/
theorem C8_amended_witness :
    reprValue (New [NoIndent, ScalarLiterals]) 10 [] (.scalarV 1 intT 5 "5" "5") "" true false =
      (if intT.typeName ≠ realKindName intT.kind ||
          (New [NoIndent, ScalarLiterals]).alwaysIncludeType || false then
        some (intT.typeStr ++ "(" ++
          (if (New [NoIndent, ScalarLiterals]).useLiterals then "5" else "5") ++ ")", [])
      else some ((if (New [NoIndent, ScalarLiterals]).useLiterals then "5" else "5"), [])) :=
  C8_amended (New [NoIndent, ScalarLiterals]) 9 [] 1 intT 5 "5" "5" "" true false (by decide)

/-- Claim C9, counterexample: a non-nil empty map nested one level down with
two-space indentation renders as `map[string]int\x7b  \x7d` — the current
indentation prefix stands between the braces (repr.go line 272 closes a map
with `thisIndent`), so the bracketing is not the sequence rule's immediate
`\x7b\x7d`. -/
theorem C9_counterexample :
    printOne defaultP 10 exNestedEmptyMap =
        some "[]map[string]int\x7b\n  map[string]int\x7b  \x7d,\n\x7d" ∧
      printOne defaultP 10 exNestedEmptyMap ≠
        some "[]map[string]int\x7b\n  map[string]int\x7b\x7d,\n\x7d" := by
  decide

/-- Claim C9 (corrected): an empty (zero-length, non-nil) map renders as the
type literal, an opening brace, the current indentation prefix, and the
closing brace; only when indentation is disabled (or the map is at top
level, where the prefix is empty) does this coincide with the sequence
rule's `\x7b\x7d` with nothing between the braces. -/
theorem C9_amended :
    ∀ p fuel seen id t indent sst anyv, id ∉ seen →
      reprValue p (fuel + 1) seen (.mapV id t []) indent sst anyv =
        some (substAny t ++ "\x7b" ++ p.thisIndent indent ++ "\x7d", seen) ∧
      (p.indent = "" →
        reprValue p (fuel + 1) seen (.mapV id t []) indent sst anyv =
          some (substAny t ++ "\x7b\x7d", seen)) := by
  intro p fuel seen id t indent sst anyv hid
  have hmain : reprValue p (fuel + 1) seen (.mapV id t []) indent sst anyv =
      some (substAny t ++ "\x7b" ++ p.thisIndent indent ++ "\x7d", seen) := by
    simp [reprValue, vid, if_neg hid, sortEntries, renderKVs, Printer.thisIndent]
  refine ⟨hmain, fun hind => ?_⟩
  rw [hmain]
  have hti : p.thisIndent indent = "" := by simp [Printer.thisIndent, hind]
  rw [hti]
  have hbr : ("\x7b" : String) ++ "" ++ "\x7d" = "\x7b\x7d" := by decide
  rw [String.append_assoc, String.append_assoc, ← String.append_assoc "\x7b",  hbr]

/-- Claim C9 witness: the empty-map rule applied at nesting depth one with
two-space indentation (prefix between the braces) and with indentation
disabled (immediate close). -/
theorem C9_amended_witness :
    reprValue defaultP 10 [1] (.mapV 2 (.mapT strT intT) []) "  " true false =
        some ("map[string]int\x7b  \x7d", [1]) ∧
      reprValue noIndentP 10 [1] (.mapV 2 (.mapT strT intT) []) "" true false =
        some ("map[string]int\x7b\x7d", [1]) := by
  constructor
  · have h := (C9_amended defaultP 9 [1] 2 (.mapT strT intT) "  " true false (by decide)).1
    rw [h]
    decide
  · exact (C9_amended noIndentP 9 [1] 2 (.mapT strT intT) "" true false (by decide)).2 rfl

/-- Claim C7 (confirmed): a zero-valued temporal renders as the fixed empty
constructor literal; a non-zero one as a time.Date call whose zone argument
is the time.UTC sentinel for the UTC location, the time.Local sentinel for
the local location, and otherwise a time.FixedZone call embedding the zone
abbreviation and offset in seconds; hence two temporals denoting the same
instant — one built with a fixed-offset zone, one with a named zone of the
same abbreviation and offset — render to identical literals; and the
renderer emits exactly timeToGo's text for a time value. -/
theorem C7_temporal :
    (∀ tm : GoTime, tm.isZero = true → timeToGo tm = "time.Time\x7b\x7d") ∧
    (∀ tm : GoTime, tm.isZero = false →
      timeToGo tm = "time.Date(" ++ dateArgs tm ++ ", " ++ zoneArg tm ++ ")") ∧
    (∀ tm : GoTime, tm.loc = .utc → zoneArg tm = "time.UTC") ∧
    (∀ tm : GoTime, tm.loc = .localLoc → zoneArg tm = "time.Local") ∧
    (∀ (tm : GoTime) (nmz : String) (off : Int), tm.loc = .fixedZone nmz off →
      zoneArg tm =
        "time.FixedZone(" ++ goQuote tm.zoneName ++ ", " ++ toString tm.zoneOffset ++ ")") ∧
    (∀ (tm : GoTime) (s : String), tm.loc = .namedZone s →
      zoneArg tm =
        "time.FixedZone(" ++ goQuote tm.zoneName ++ ", " ++ toString tm.zoneOffset ++ ")") ∧
    (∀ (t1 t2 : GoTime) (nmz : String) (off : Int) (s : String),
      t1.loc = .fixedZone nmz off → t2.loc = .namedZone s →
      t1.zoneName = t2.zoneName → t1.zoneOffset = t2.zoneOffset →
      t1.year = t2.year → t1.month = t2.month → t1.day = t2.day → t1.hour = t2.hour →
      t1.minute = t2.minute → t1.second = t2.second → t1.nanosecond = t2.nanosecond →
      t1.isZero = t2.isZero → timeToGo t1 = timeToGo t2) ∧
    (∀ p fuel seen id tm indent sst anyv, id ∉ seen →
      reprValue p (fuel + 1) seen (.timeV id tm) indent sst anyv =
        some (timeToGo tm, seen)) := by
  have hzero : ∀ tm : GoTime, tm.isZero = true → timeToGo tm = "time.Time\x7b\x7d" := by
    intro tm h
    simp [timeToGo, h]
  have hdate : ∀ tm : GoTime, tm.isZero = false →
      timeToGo tm = "time.Date(" ++ dateArgs tm ++ ", " ++ zoneArg tm ++ ")" := by
    intro tm h
    cases hl : tm.loc <;>
      simp [timeToGo, zoneArg, dateArgs, h, hl, String.append_assoc]
  refine ⟨hzero, hdate, ?_, ?_, ?_, ?_, ?_, ?_⟩
  · intro tm h
    simp [zoneArg, h]
  · intro tm h
    simp [zoneArg, h]
  · intro tm nmz off h
    simp [zoneArg, h]
  · intro tm s h
    simp [zoneArg, h]
  · intro t1 t2 nmz off s h1 h2 hzn hzo hy hmo hd hh hmi hs hn hz
    cases hz1 : t1.isZero with
    | true =>
      rw [hzero t1 hz1, hzero t2 (by rw [← hz, hz1])]
    | false =>
      rw [hdate t1 hz1, hdate t2 (by rw [← hz, hz1])]
      have hda : dateArgs t1 = dateArgs t2 := by
        simp [dateArgs, hy, hmo, hd, hh, hmi, hs, hn]
      have hza : zoneArg t1 = zoneArg t2 := by
        simp [zoneArg, h1, h2, hzn, hzo]
      rw [hda, hza]
  · intro p fuel seen id tm indent sst anyv hid
    simp [reprValue, vid, if_neg hid]

/-- Claim C7 witness: the equivalence applied to the TestReprTime instant
built once with time.FixedZone("Repr", 10800) and once with a named zone of
the same abbreviation and offset, plus the zero-time literal. -/
theorem C7_temporal_witness :
    timeToGo tmFixed = timeToGo tmNamed ∧
      timeToGo { tmFixed with isZero := true } = "time.Time\x7b\x7d" ∧
      reprValue noIndentP 10 [] (.timeV 1 tmFixed) "" true false =
        some (timeToGo tmFixed, []) :=
  ⟨C7_temporal.2.2.2.2.2.2.1 tmFixed tmNamed "Repr" 10800 "Fake/Repr" rfl rfl rfl rfl rfl rfl
      rfl rfl rfl rfl rfl rfl,
   C7_temporal.1 { tmFixed with isZero := true } rfl,
   C7_temporal.2.2.2.2.2.2.2 noIndentP 9 [] 1 tmFixed "" true false (by decide)⟩

theorem digitChar_ne_newline (d : Nat) : Nat.digitChar d ≠ '\n' := by
  rcases Nat.lt_or_ge d 16 with h | h
  · interval_cases d <;> decide
  · unfold Nat.digitChar
    repeat rw [if_neg (by omega)]
    decide

theorem toDigitsCore_ne_newline (b : Nat) :
    ∀ fuel n ds, (∀ c ∈ ds, c ≠ '\n') → ∀ c ∈ Nat.toDigitsCore b fuel n ds, c ≠ '\n' := by
  intro fuel
  induction fuel with
  | zero =>
    intro n ds hds c hc
    exact hds c hc
  | succ fuel ih =>
    intro n ds hds c hc
    simp only [Nat.toDigitsCore] at hc
    split at hc
    · rcases List.mem_cons.mp hc with h | h
      · rw [h]
        exact digitChar_ne_newline _
      · exact hds c h
    · refine ih _ _ ?_ c hc
      intro c' hc'
      rcases List.mem_cons.mp hc' with h | h
      · rw [h]
        exact digitChar_ne_newline _
      · exact hds c' h

theorem natToString_ne_newline (n : Nat) : ∀ c ∈ (toString n).data, c ≠ '\n' := by
  intro c hc
  have hdata : (toString n).data = Nat.toDigitsCore 10 (n + 1) n [] := rfl
  rw [hdata] at hc
  exact toDigitsCore_ne_newline 10 (n + 1) n [] (by intro c' hc'; cases hc') c hc

theorem noNL_spec {s : String} (h : noNL s = true) : ∀ c ∈ s.data, c ≠ '\n' := by
  intro c hc
  have := List.all_eq_true.mp h c hc
  simpa using this

theorem append_clean {a b : String} (ha : ∀ c ∈ a.data, c ≠ '\n')
    (hb : ∀ c ∈ b.data, c ≠ '\n') : ∀ c ∈ (a ++ b).data, c ≠ '\n' := by
  intro c hc
  rw [String.data_append] at hc
  rcases List.mem_append.mp hc with h | h
  · exact ha c h
  · exact hb c h

theorem sepJoin_clean (sep : String) (hsep : ∀ c ∈ sep.data, c ≠ '\n') :
    ∀ parts : List String, (∀ s ∈ parts, ∀ c ∈ s.data, c ≠ '\n') →
      ∀ c ∈ (sepJoin sep parts).data, c ≠ '\n' := by
  intro parts
  induction parts with
  | nil =>
    intro _ c hc
    cases hc
  | cons s rest ih =>
    cases rest with
    | nil =>
      intro h c hc
      exact h s (List.mem_cons_self s []) c hc
    | cons s2 rest2 =>
      intro h
      exact append_clean
        (append_clean (h s (List.mem_cons_self s _)) hsep)
        (ih fun x hx => h x (List.mem_cons_of_mem s hx))

theorem typeStr_clean : ∀ t : GoType, cleanType t = true → ∀ c ∈ t.typeStr.data, c ≠ '\n'
  | .prim k, _ => by cases k <;> decide
  | .named str _ _, h => by
    simp only [cleanType, Bool.and_eq_true] at h
    exact noNL_spec h.1.1
  | .slice e, h =>
    append_clean (by decide) (typeStr_clean e h)
  | .array n e, h =>
    append_clean
      (append_clean (append_clean (by decide) (natToString_ne_newline n)) (by decide))
      (typeStr_clean e h)
  | .mapT k v, h => by
    simp only [cleanType, Bool.and_eq_true] at h
    exact append_clean
      (append_clean (append_clean (by decide) (typeStr_clean k h.1)) (by decide))
      (typeStr_clean v h.2)
  | .chanT d e, h => by
    simp only [cleanType, Bool.and_eq_true] at h
    exact append_clean (append_clean (noNL_spec h.1) (by decide)) (typeStr_clean e h.2)
  | .funcT nm ins outs, h => by
    simp only [cleanType, Bool.and_eq_true] at h
    have hins : ∀ s ∈ ins, ∀ c ∈ s.data, c ≠ '\n' := fun s hs =>
      noNL_spec (List.all_eq_true.mp h.1.2 s hs)
    have houts : ∀ s ∈ outs, ∀ c ∈ s.data, c ≠ '\n' := fun s hs =>
      noNL_spec (List.all_eq_true.mp h.2 s hs)
    have hsep : ∀ c ∈ (", " : String).data, c ≠ '\n' := by decide
    by_cases ho : outs.isEmpty
    · simp only [GoType.typeStr, if_pos ho]
      exact append_clean
        (append_clean (append_clean (append_clean (by decide) (noNL_spec h.1.1)) (by decide))
          (sepJoin_clean ", " hsep ins hins))
        (by decide)
    · simp only [GoType.typeStr, if_neg ho]
      exact append_clean
        (append_clean
          (append_clean
            (append_clean
              (append_clean (append_clean (by decide) (noNL_spec h.1.1)) (by decide))
              (sepJoin_clean ", " hsep ins hins))
            (by decide))
          (sepJoin_clean ", " hsep outs houts))
        (by decide)
  | .ptrT e, h =>
    append_clean (by decide) (typeStr_clean e h)
  | .ifaceT s, h => by
    by_cases hs : s = ""
    · simp only [GoType.typeStr, if_pos hs]
      decide
    · simp only [GoType.typeStr, if_neg hs]
      exact noNL_spec h
  | .structT s, h => noNL_spec h

theorem substAny_clean : ∀ t : GoType, cleanType t = true → ∀ c ∈ (substAny t).data, c ≠ '\n'
  | .prim k, _ => by cases k <;> decide
  | .slice e, h =>
    append_clean (by decide) (substAny_clean e h)
  | .array n e, h =>
    append_clean
      (append_clean (append_clean (by decide) (natToString_ne_newline n)) (by decide))
      (substAny_clean e h)
  | .mapT k v, h => by
    simp only [cleanType, Bool.and_eq_true] at h
    exact append_clean
      (append_clean (append_clean (by decide) (substAny_clean k h.1)) (by decide))
      (substAny_clean v h.2)
  | .chanT d e, h => by
    simp only [cleanType, Bool.and_eq_true] at h
    exact append_clean (append_clean (noNL_spec h.1) (by decide)) (substAny_clean e h.2)
  | .funcT nm ins outs, h => by
    simp only [cleanType, Bool.and_eq_true] at h
    have hins : ∀ s ∈ ins, ∀ c ∈ s.data, c ≠ '\n' := fun s hs =>
      noNL_spec (List.all_eq_true.mp h.1.2 s hs)
    have houts : ∀ s ∈ outs, ∀ c ∈ s.data, c ≠ '\n' := fun s hs =>
      noNL_spec (List.all_eq_true.mp h.2 s hs)
    have hsep : ∀ c ∈ (", " : String).data, c ≠ '\n' := by decide
    by_cases ho : outs.isEmpty
    · simp only [substAny, if_pos ho]
      exact append_clean
        (append_clean (append_clean (append_clean (by decide) (noNL_spec h.1.1)) (by decide))
          (sepJoin_clean ", " hsep ins hins))
        (by decide)
    · simp only [substAny, if_neg ho]
      exact append_clean
        (append_clean
          (append_clean
            (append_clean
              (append_clean (append_clean (by decide) (noNL_spec h.1.1)) (by decide))
              (sepJoin_clean ", " hsep ins hins))
            (by decide))
          (sepJoin_clean ", " hsep outs houts))
        (by decide)
  | .ptrT e, h =>
    append_clean (by decide) (typeStr_clean e h)
  | .ifaceT s, h => by
    by_cases hs : s = ""
    · simp only [substAny, if_pos hs]
      decide
    · simp only [substAny, if_neg hs]
      exact noNL_spec h
  | .structT s, h => noNL_spec h
  | .named str nm u, h => by
    have h0 := h
    simp only [cleanType, Bool.and_eq_true] at h
    cases u with
    | slice e =>
      simp only [substAny]
      exact append_clean (by decide) (substAny_clean e h.2)
    | array n e =>
      simp only [substAny]
      exact append_clean
        (append_clean (append_clean (by decide) (natToString_ne_newline n)) (by decide))
        (substAny_clean e h.2)
    | mapT k v =>
      simp only [substAny]
      have h2 := h.2
      simp only [cleanType, Bool.and_eq_true] at h2
      exact append_clean
        (append_clean (append_clean (by decide) (substAny_clean k h2.1)) (by decide))
        (substAny_clean v h2.2)
    | chanT d e =>
      simp only [substAny]
      have h2 := h.2
      simp only [cleanType, Bool.and_eq_true] at h2
      exact append_clean (append_clean (noNL_spec h2.1) (by decide)) (substAny_clean e h2.2)
    | funcT fn ins outs =>
      simp only [substAny]
      have h2 := h.2
      simp only [cleanType, Bool.and_eq_true] at h2
      have hins : ∀ s ∈ ins, ∀ c ∈ s.data, c ≠ '\n' := fun s hs =>
        noNL_spec (List.all_eq_true.mp h2.1.2 s hs)
      have houts : ∀ s ∈ outs, ∀ c ∈ s.data, c ≠ '\n' := fun s hs =>
        noNL_spec (List.all_eq_true.mp h2.2 s hs)
      have hsep : ∀ c ∈ (", " : String).data, c ≠ '\n' := by decide
      by_cases ho : outs.isEmpty
      · simp only [if_pos ho]
        exact append_clean
          (append_clean (append_clean (append_clean (by decide) (noNL_spec h2.1.1))
            (by decide)) (sepJoin_clean ", " hsep ins hins))
          (by decide)
      · simp only [if_neg ho]
        exact append_clean
          (append_clean
            (append_clean
              (append_clean
                (append_clean (append_clean (by decide) (noNL_spec h2.1.1)) (by decide))
                (sepJoin_clean ", " hsep ins hins))
              (by decide))
            (sepJoin_clean ", " hsep outs houts))
          (by decide)
    | prim k =>
      simp only [substAny]
      exact typeStr_clean (.named str nm (.prim k)) h0
    | named str2 nm2 u2 =>
      simp only [substAny]
      exact typeStr_clean (.named str nm (.named str2 nm2 u2)) h0
    | ptrT e =>
      simp only [substAny]
      exact typeStr_clean (.named str nm (.ptrT e)) h0
    | ifaceT s2 =>
      simp only [substAny]
      exact typeStr_clean (.named str nm (.ifaceT s2)) h0
    | structT s2 =>
      simp only [substAny]
      exact typeStr_clean (.named str nm (.structT s2)) h0

theorem renderSeq_cons (recE : List Nat → Value → Option (String × List Nat))
    (pIndent ni : String) (seen : List Nat) (e : Value) (rest : List Value) :
    renderSeq recE pIndent ni seen (e :: rest) =
      match recE seen e with
      | none => none
      | some (s, seen1) =>
        match renderSeq recE pIndent ni seen1 rest with
        | none => none
        | some (s2, seen2) =>
          some (ni ++ s ++
            (if pIndent ≠ "" then ",\n" else if rest.isEmpty then "" else ", ") ++ s2,
            seen2) := rfl

theorem renderSeq_joinAll {recE : List Nat → Value → Option (String × List Nat)}
    {pIndent ni : String} (hpi : pIndent ≠ "") :
    ∀ (l : List Value) (seen : List Nat) (f : Value → String),
      (∀ e ∈ l, recE seen e = some (f e, seen)) →
      renderSeq recE pIndent ni seen l =
        some (joinAll (l.map fun e => ni ++ f e ++ ",\n"), seen) := by
  intro l
  induction l with
  | nil =>
    intro seen f _
    simp [renderSeq, joinAll]
  | cons e rest ih =>
    intro seen f hf
    have he := hf e (List.mem_cons_self e rest)
    have hr := ih seen f fun x hx => hf x (List.mem_cons_of_mem e hx)
    simp [renderSeq, he, hr, joinAll, if_pos hpi]

theorem renderSeq_sepJoin {recE : List Nat → Value → Option (String × List Nat)}
    {ni : String} :
    ∀ (l : List Value) (seen : List Nat) (f : Value → String),
      (∀ e ∈ l, recE seen e = some (f e, seen)) →
      renderSeq recE "" ni seen l =
        some (sepJoin ", " (l.map fun e => ni ++ f e), seen) := by
  intro l
  induction l with
  | nil =>
    intro seen f _
    simp [renderSeq, sepJoin]
  | cons e rest ih =>
    intro seen f hf
    have he := hf e (List.mem_cons_self e rest)
    have hr := ih seen f fun x hx => hf x (List.mem_cons_of_mem e hx)
    cases rest with
    | nil =>
      simp [renderSeq, he, sepJoin, String.append_empty]
    | cons e2 rest2 =>
      rw [renderSeq_cons, he]
      simp only [hr]
      simp [sepJoin, String.append_assoc]

/-- Claim C3 (confirmed): a zero-length sequence renders as the type literal
immediately followed by braces with nothing inside and no newline anywhere in
the output even when indentation is enabled; a non-empty sequence with
indentation enabled places every element (the last included) on its own line
prefixed by the next-level indent and followed by a trailing comma, closing
with the brace at the current (not next-level) indentation; with indentation
disabled, elements are separated by comma-space with no separator after the
last. -/
theorem C3_sequence_shape :
    (∀ p fuel seen id t indent sst anyv, id ∉ seen → t ≠ byteSliceT →
      cleanType t = true →
      reprValue p (fuel + 1) seen (.sliceV id t []) indent sst anyv =
          some (substAny t ++ "\x7b\x7d", seen) ∧
        ∀ c ∈ (substAny t ++ "\x7b\x7d").data, c ≠ '\n') ∧
    (∀ p fuel seen id t elems indent sst anyv (f : Value → String), id ∉ seen →
      t ≠ byteSliceT → elems ≠ [] → p.indent ≠ "" →
      (∀ e ∈ elems,
        reprValue p fuel (id :: seen) e (p.nextIndent indent)
          (p.alwaysIncludeType || p.explicitTypes) (t.elemT = anyT) =
          some (f e, id :: seen)) →
      reprValue p (fuel + 1) seen (.sliceV id t elems) indent sst anyv =
        some (substAny t ++ "\x7b" ++ "\n" ++
          joinAll (elems.map fun e => p.nextIndent indent ++ f e ++ ",\n") ++
          indent ++ "\x7d", seen)) ∧
    (∀ p fuel seen id t elems indent sst anyv (f : Value → String), id ∉ seen →
      t ≠ byteSliceT → p.indent = "" →
      (∀ e ∈ elems,
        reprValue p fuel (id :: seen) e (p.nextIndent indent)
          (p.alwaysIncludeType || p.explicitTypes) (t.elemT = anyT) =
          some (f e, id :: seen)) →
      reprValue p (fuel + 1) seen (.sliceV id t elems) indent sst anyv =
        some (substAny t ++ "\x7b" ++ sepJoin ", " (elems.map f) ++ "\x7d", seen)) := by
  refine ⟨?_, ?_, ?_⟩
  · intro p fuel seen id t indent sst anyv hid hbyte hclean
    constructor
    · simp [reprValue, vid, if_neg hid, if_neg hbyte]
    · exact append_clean (substAny_clean t hclean) (by decide)
  · intro p fuel seen id t elems indent sst anyv f hid hbyte hne hpi hf
    have hemp : elems.isEmpty = false := by
      cases elems with
      | nil => exact absurd rfl hne
      | cons a l => rfl
    simp only [reprValue, vid, if_neg hid]
    rw [if_neg hbyte, if_neg (by simp [hemp])]
    rw [renderSeq_joinAll hpi elems (id :: seen) f hf]
    simp only [List.erase_cons_head]
    have hnl : (if p.indent ≠ "" then "\n" else "") = "\n" := if_pos hpi
    have hin : p.thisIndent indent = indent := if_pos hpi
    rw [hnl, hin]
  · intro p fuel seen id t elems indent sst anyv f hid hbyte hpi hf
    have hni : p.nextIndent indent = "" := by simp [Printer.nextIndent, hpi]
    have hti : p.thisIndent indent = "" := by simp [Printer.thisIndent, hpi]
    simp only [reprValue, vid, if_neg hid]
    rw [if_neg hbyte]
    by_cases hemp : elems.isEmpty = true
    · have helems : elems = [] := by
        cases elems with
        | nil => rfl
        | cons a l => exact absurd hemp (by simp [List.isEmpty])
      subst helems
      rw [if_pos hemp]
      simp only [List.erase_cons_head, List.map_nil, sepJoin, Option.some.injEq,
        Prod.mk.injEq]
      refine ⟨?_, trivial⟩
      rw [String.append_empty, String.append_assoc]
      have hbr : ("\x7b" : String) ++ "\x7d" = "\x7b\x7d" := by decide
      rw [hbr]
    · rw [if_neg hemp]
      rw [hni] at hf
      rw [hpi, hni, hti]
      rw [renderSeq_sepJoin elems (id :: seen) f hf]
      simp only [List.erase_cons_head, Option.some.injEq, Prod.mk.injEq]
      refine ⟨?_, trivial⟩
      have hmap : (elems.map fun e => "" ++ f e) = elems.map f := by
        apply List.map_congr_left
        intro e _
        exact String.empty_append (f e)
      rw [hmap]
      have hnl : (if ("" : String) ≠ "" then "\n" else "") = "" := by simp
      rw [hnl, String.append_empty, String.append_empty]

/-- Claim C3 witness: the empty slice `[]int\x7b\x7d`, the two-element
`[]string` under two-space indentation, and the same slice without
indentation. -/
theorem C3_sequence_shape_witness :
    reprValue noIndentP 10 [] (.sliceV 1 (.slice intT) []) "" true false =
        some (substAny (.slice intT) ++ "\x7b\x7d", []) ∧
      reprValue defaultP 10 []
          (.sliceV 1 (.slice strT) [.strV 2 strT "a", .strV 3 strT "b"]) "" true false =
        some (substAny (.slice strT) ++ "\x7b" ++ "\n" ++
          joinAll (([Value.strV 2 strT "a", Value.strV 3 strT "b"]).map fun e =>
            defaultP.nextIndent "" ++
              (match e with | Value.strV _ _ str => goQuote str | _ => "") ++ ",\n") ++
          "" ++ "\x7d", []) ∧
      reprValue noIndentP 10 []
          (.sliceV 1 (.slice strT) [.strV 2 strT "a", .strV 3 strT "b"]) "" true false =
        some (substAny (.slice strT) ++ "\x7b" ++
          sepJoin ", " (([Value.strV 2 strT "a", Value.strV 3 strT "b"]).map fun e =>
            (match e with | Value.strV _ _ str => goQuote str | _ => "")) ++ "\x7d", []) :=
  ⟨(C3_sequence_shape.1 noIndentP 9 [] 1 (.slice intT) "" true false (by decide) (by decide)
      (by decide)).1,
   C3_sequence_shape.2.1 defaultP 9 [] 1 (.slice strT)
     [Value.strV 2 strT "a", Value.strV 3 strT "b"] "" true false
     (fun e => match e with | Value.strV _ _ str => goQuote str | _ => "")
     (by decide) (by decide) (List.cons_ne_nil _ _) (by decide) (by decide),
   C3_sequence_shape.2.2 noIndentP 9 [] 1 (.slice strT)
     [Value.strV 2 strT "a", Value.strV 3 strT "b"] "" true false
     (fun e => match e with | Value.strV _ _ str => goQuote str | _ => "")
     (by decide) (by decide) (by decide) (by decide)⟩

theorem renderFields_join {p : Printer} (hip : p.ignorePrivate = false)
    {recF : List Nat → Value → Bool → Option (String × List Nat)} {ni : String} :
    ∀ (l : List (String × GoType × Value × Bool)) (seen : List Nat) (prev : Bool)
      (f : (String × GoType × Value × Bool) → String),
      (∀ fld ∈ l, keepField p fld = true →
        recF seen fld.2.2.1 (fld.2.1 = anyT) = some (f fld, seen)) →
      renderFields p recF ni seen prev l =
        some (fieldsOut p ni prev ((l.filter (keepField p)).map fun fld => (fld.1, f fld)),
          seen) := by
  intro l
  induction l with
  | nil =>
    intro seen prev f _
    simp [renderFields, fieldsOut]
  | cons fld rest ih =>
    obtain ⟨nm, ft, fv, canI⟩ := fld
    intro seen prev f hf
    have hrest := fun x hx => hf x (List.mem_cons_of_mem _ hx)
    by_cases h1 : ft ∈ p.exclude
    · have hk : keepField p (nm, ft, fv, canI) = false := by simp [keepField, h1]
      simp only [renderFields, if_pos h1]
      rw [ih seen prev f hrest, List.filter_cons_of_neg (by simp [hk])]
    · by_cases h2 : nm ∈ p.excludeFields
      · have hk : keepField p (nm, ft, fv, canI) = false := by simp [keepField, h2]
        simp only [renderFields, if_neg h1, if_pos h2]
        rw [ih seen prev f hrest, List.filter_cons_of_neg (by simp [hk])]
      · by_cases h3 : (p.ignorePrivate && !canI) = true
        · rw [hip] at h3
          simp at h3
        · by_cases h4 : (p.omitZero &&
              ((implementsIsZeroer ft && isZeroMethodVal fv) || goIsZero fv)) = true
          · have hk : keepField p (nm, ft, fv, canI) = false := by
              simp only [keepField, h4]
              simp
            simp only [renderFields, if_neg h1, if_neg h2, if_neg h3, if_pos h4]
            rw [ih seen prev f hrest, List.filter_cons_of_neg (by simp [hk])]
          · by_cases h5 : (p.omitEmpty && (goIsZero fv ||
                (ft.kind = .slice && goLen fv = 0) || (ft.kind = .map && goLen fv = 0))) = true
            · have hk : keepField p (nm, ft, fv, canI) = false := by
                simp only [keepField, h5]
                simp
              simp only [renderFields, if_neg h1, if_neg h2, if_neg h3, if_neg h4, if_pos h5]
              rw [ih seen prev f hrest, List.filter_cons_of_neg (by simp [hk])]
            · have hk : keepField p (nm, ft, fv, canI) = true := by
                simp only [keepField]
                simp only [Bool.and_eq_true, Bool.not_eq_true']
                refine ⟨⟨⟨⟨by simp [h1], by simp [h2]⟩, ?_⟩, ?_⟩, ?_⟩
                · simp only [Bool.not_eq_true] at h3
                  exact h3
                · simp only [Bool.not_eq_true] at h4
                  exact h4
                · simp only [Bool.not_eq_true] at h5
                  exact h5
              have he := hf (nm, ft, fv, canI) (List.mem_cons_self _ _) hk
              simp only [renderFields, if_neg h1, if_neg h2, if_neg h3, if_neg h4, if_neg h5]
              rw [he]
              simp only [ih seen true f hrest]
              rw [List.filter_cons_of_pos (by simp [hk])]
              simp only [List.map_cons, fieldsOut, hip, Bool.false_and, Bool.and_false,
                if_neg (Bool.false_ne_true ∘ id)]

/-- fieldsOut with indentation disabled is the comma-space separated list
with no trailing separator, give or take the leading separator when a field
was already emitted. -/
theorem fieldsOut_noIndent {p : Printer} (hpi : p.indent = "") :
    ∀ (pairs : List (String × String)) (prev : Bool),
      fieldsOut p "" prev pairs =
        (if prev = true ∧ pairs ≠ [] then ", " else "") ++
          sepJoin ", " (pairs.map fun pr => pr.1 ++ ": " ++ pr.2) := by
  intro pairs
  induction pairs with
  | nil =>
    intro prev
    simp [fieldsOut, sepJoin]
  | cons pr rest ih =>
    intro prev
    obtain ⟨nm, s⟩ := pr
    simp only [fieldsOut, hpi]
    rw [ih true]
    cases prev <;> cases rest <;>
      simp [sepJoin, String.append_assoc, String.append_empty, String.empty_append]

/-- fieldsOut with indentation enabled emits every field with a trailing
comma and newline, the `prev` state never mattering. -/
theorem fieldsOut_indent {p : Printer} (hpi : p.indent ≠ "") :
    ∀ (ni : String) (pairs : List (String × String)) (prev : Bool),
      fieldsOut p ni prev pairs =
        joinAll (pairs.map fun pr => ni ++ pr.1 ++ ": " ++ pr.2 ++ ",\n") := by
  intro ni pairs
  induction pairs with
  | nil =>
    intro prev
    simp [fieldsOut, joinAll]
  | cons pr rest ih =>
    intro prev
    obtain ⟨nm, s⟩ := pr
    simp only [fieldsOut]
    rw [ih true]
    simp [hpi, joinAll, String.append_assoc, String.empty_append]

/-- Claim C4 (confirmed): with omit-zero and omit-empty enabled (the
defaults) the field loop drops every field holding a zero value (zero
scalars and nil references included) or a zero-length slice or map, so such
fields are entirely absent from a record's output; the emitted text is
exactly the kept fields joined with `, ` between them when indentation is
off (no stray separator before the closing brace) and one `name: value,\n`
line per field when indentation is on. -/
theorem C4_zero_empty_omission (p : Printer) (_hz : p.omitZero = true)
    (he : p.omitEmpty = true) (hip : p.ignorePrivate = false) :
    (∀ fld : String × GoType × Value × Bool,
      goIsZero fld.2.2.1 = true ∨ (fld.2.1.kind = .slice ∧ goLen fld.2.2.1 = 0) ∨
        (fld.2.1.kind = .map ∧ goLen fld.2.2.1 = 0) →
      keepField p fld = false) ∧
    (∀ fuel seen id t fields indent sst anyv
      (f : (String × GoType × Value × Bool) → String), id ∉ seen →
      (∀ fld ∈ fields, keepField p fld = true →
        reprValue p fuel (id :: seen) fld.2.2.1 (p.nextIndent indent) true
          (fld.2.1 = anyT) = some (f fld, id :: seen)) →
      reprValue p (fuel + 1) seen (.structV id t fields) indent sst anyv =
        some ((if sst then substAny t ++ "\x7b" else "\x7b") ++
          (if p.indent ≠ "" && fields.length ≠ 0 then "\n" else "") ++
          fieldsOut p (p.nextIndent indent) false
            ((fields.filter (keepField p)).map fun fld => (fld.1, f fld)) ++
          indent ++ "\x7d", seen)) ∧
    (p.indent = "" → ∀ pairs : List (String × String),
      fieldsOut p "" false pairs =
        sepJoin ", " (pairs.map fun pr => pr.1 ++ ": " ++ pr.2)) ∧
    (p.indent ≠ "" → ∀ (ni : String) (pairs : List (String × String)),
      fieldsOut p ni false pairs =
        joinAll (pairs.map fun pr => ni ++ pr.1 ++ ": " ++ pr.2 ++ ",\n")) := by
  refine ⟨?_, ?_, ?_, ?_⟩
  · intro fld h
    rcases h with h | ⟨h1, h2⟩ | ⟨h1, h2⟩
    · simp [keepField, he, h]
    · simp [keepField, he, h1, h2]
    · simp [keepField, he, h1, h2]
  · intro fuel seen id t fields indent sst anyv f hid hf
    simp only [reprValue, vid, if_neg hid]
    rw [renderFields_join hip fields (id :: seen) false f hf]
    simp only [List.erase_cons_head]
  · intro hpi pairs
    rw [fieldsOut_noIndent hpi pairs false]
    simp
  · intro hpi ni pairs
    exact fieldsOut_indent hpi ni pairs false

/-- Claim C4 witness: a record with a kept string field, a nil pointer field
and an empty-map field renders with only the string field and no separator
before the closing brace; the two join forms at concrete pairs. -/
theorem C4_zero_empty_omission_witness :
    keepField noIndentP ("I", .ptrT intT, .nilV 3 (.ptrT intT), true) = false ∧
      reprValue noIndentP 10 []
        (.structV 1 (.structT "repr.testOmit")
          [("S", strT, .strV 2 strT "String", true),
            ("I", .ptrT intT, .nilV 3 (.ptrT intT), true),
            ("M", .mapT strT intT, .mapV 4 (.mapT strT intT) [], true)]) "" true false =
        some ("repr.testOmit\x7bS: \"String\"\x7d", []) ∧
      fieldsOut noIndentP "" false [("a", "1"), ("b", "2")] = "a: 1, b: 2" ∧
      fieldsOut defaultP "  " false [("a", "1")] = "  a: 1,\n" := by
  have hc := C4_zero_empty_omission noIndentP rfl rfl rfl
  have hd := C4_zero_empty_omission defaultP rfl rfl rfl
  refine ⟨?_, ?_, ?_, ?_⟩
  · exact hc.1 ("I", .ptrT intT, .nilV 3 (.ptrT intT), true) (Or.inl rfl)
  · have h := hc.2.1 9 [] 1 (.structT "repr.testOmit")
      [("S", strT, .strV 2 strT "String", true),
        ("I", .ptrT intT, .nilV 3 (.ptrT intT), true),
        ("M", .mapT strT intT, .mapV 4 (.mapT strT intT) [], true)] "" true false
      (fun fld => match fld.2.2.1 with | Value.strV _ _ s => goQuote s | _ => "")
      (by decide) (by decide)
    rw [h]
    decide
  · rw [hc.2.2.1 rfl [("a", "1"), ("b", "2")]]
    decide
  · rw [hd.2.2.2 (by decide) "  " [("a", "1")]]
    decide

theorem sortEntries_eq_of_perm {e1 e2 : List (Value × Value)} (h12 : e1.Perm e2)
    (hnd : (e1.map fun pr => sprintValue pr.1).Nodup) : sortEntries e1 = sortEntries e2 := by
  have hs1 : List.Sorted entryRel (sortEntries e1) := List.sorted_insertionSort entryRel e1
  have hs2 : List.Sorted entryRel (sortEntries e2) := List.sorted_insertionSort entryRel e2
  have hperm : (sortEntries e1).Perm (sortEntries e2) :=
    (List.perm_insertionSort entryRel e1).trans
      (h12.trans (List.perm_insertionSort entryRel e2).symm)
  have hnd1 : ((sortEntries e1).map fun pr => sprintValue pr.1).Nodup :=
    (((List.perm_insertionSort entryRel e1).map _).nodup_iff).mpr hnd
  have hnd2 : ((sortEntries e2).map fun pr => sprintValue pr.1).Nodup :=
    (((List.perm_insertionSort entryRel e2).map _).nodup_iff).mpr
      ((h12.map _).nodup_iff.mp hnd)
  have hstrict : ∀ l : List (Value × Value), List.Sorted entryRel l →
      ((l.map fun pr => sprintValue pr.1).Nodup) →
      List.Pairwise (fun a b : Value × Value =>
        goLess (sprintValue a.1) (sprintValue b.1) = true) l := by
    intro l hs hn
    have hne : List.Pairwise
        (fun a b : Value × Value => sprintValue a.1 ≠ sprintValue b.1) l :=
      List.pairwise_map.mp hn
    refine (hs.and hne).imp ?_
    intro a b hab
    cases hg : goLess (sprintValue a.1) (sprintValue b.1) with
    | true => rfl
    | false => exact absurd (goLess_connex hg hab.1) hab.2
  haveI : IsAntisymm (Value × Value)
      (fun a b : Value × Value => goLess (sprintValue a.1) (sprintValue b.1) = true) :=
    ⟨fun a b hab hba => absurd hba (by simp [goLess_asymm hab])⟩
  exact List.eq_of_perm_of_sorted hperm (hstrict _ hs1 hnd1) (hstrict _ hs2 hnd2)

/-- Claim C1, counterexample: the map `map[any]int` holding the keys `any(1)`
and `any("1")` — distinct keys whose fmt.Sprint sort texts tie — renders to
different bytes under its two enumeration orders, although both lists are
permutations of the same entry set and the configuration is identical, so
the determinism guarantee fails as universally stated. -/
theorem C1_counterexample :
    ([tieEntryInt, tieEntryStr] : List (Value × Value)).Perm [tieEntryStr, tieEntryInt] ∧
      stringOf 10 tieMapA [] = some "map[any]int\x7bint(1): 10, \"1\": 20\x7d" ∧
      stringOf 10 tieMapB [] = some "map[any]int\x7b\"1\": 20, int(1): 10\x7d" ∧
      stringOf 10 tieMapA [] ≠ stringOf 10 tieMapB [] := by
  refine ⟨List.Perm.swap tieEntryStr tieEntryInt [], ?_, ?_, ?_⟩ <;> decide

/-- Claim C1 (corrected): the rendered entries always appear in ascending
(non-strict) order of the fmt.Sprint text of each key; and whenever the keys
of a map have pairwise distinct fmt.Sprint texts — true of every map whose
key type is string, numeric, or any other type whose values print
distinctly — two renderings of the same map under the same configuration
produce byte-identical output regardless of the enumeration order of the
underlying map. -/
theorem C1_map_determinism :
    (∀ entries : List (Value × Value), List.Pairwise entryRel (sortEntries entries)) ∧
    (∀ p fuel seen id t indent sst anyv (e1 e2 : List (Value × Value)),
      e1.Perm e2 → (e1.map fun pr => sprintValue pr.1).Nodup →
      reprValue p fuel seen (.mapV id t e1) indent sst anyv =
        reprValue p fuel seen (.mapV id t e2) indent sst anyv) := by
  constructor
  · intro entries
    exact List.sorted_insertionSort entryRel entries
  · intro p fuel seen id t indent sst anyv e1 e2 h12 hnd
    have hsort : sortEntries e1 = sortEntries e2 := sortEntries_eq_of_perm h12 hnd
    have hlen : e1.length = e2.length := h12.length_eq
    cases fuel with
    | zero => rfl
    | succ fuel => simp only [reprValue, vid, hsort, hlen]

/-- Claim C1 witness: the TestReprMap entries (string keys, distinct sort
texts) render identically under two enumeration orders, and the emitted
order is the ascending one. -/
theorem C1_map_determinism_witness :
    reprValue noIndentP 10 [] (.mapV 1 (.mapT strT intT) abcEntries) "" true false =
        reprValue noIndentP 10 [] (.mapV 1 (.mapT strT intT) abcEntriesR) "" true false ∧
      List.Pairwise entryRel (sortEntries abcEntries) := by
  constructor
  · refine C1_map_determinism.2 noIndentP 10 [] 1 (.mapT strT intT) "" true false
      abcEntries abcEntriesR ?_ (by decide)
    unfold abcEntries abcEntriesR
    exact List.Perm.swap _ _ _
  · exact C1_map_determinism.1 abcEntries

theorem lookup_mem {h : Heap} {id : Nat} {c : Cell} (hl : h.lookup id = some c) :
    (id, c) ∈ h := by
  induction h with
  | nil => cases hl
  | cons pc rest ih =>
    obtain ⟨k, c0⟩ := pc
    by_cases hk : id = k
    · subst hk
      simp [List.lookup] at hl
      simp [hl]
    · simp only [List.lookup] at hl
      rw [show (id == k) = false by simp [hk]] at hl
      exact List.mem_cons_of_mem _ (ih hl)

theorem lookup_mem_keys {h : Heap} {id : Nat} (hl : (h.lookup id).isSome) :
    id ∈ h.map Prod.fst := by
  obtain ⟨c, hc⟩ := Option.isSome_iff_exists.mp hl
  exact List.mem_map.mpr ⟨(id, c), lookup_mem hc, rfl⟩

theorem filter_notmem_cons_le (d : List Nat) (seen : List Nat) (id : Nat) :
    (d.filter fun i => i ∉ (id :: seen)).length ≤ (d.filter fun i => i ∉ seen).length := by
  induction d with
  | nil => simp
  | cons a rest ih =>
    rw [List.filter_cons, List.filter_cons]
    by_cases ha2 : a ∈ seen
    · rw [if_neg (by simp [ha2]), if_neg (by simp [ha2])]
      exact ih
    · by_cases ha : a = id
      · subst ha
        rw [if_neg (by simp), if_pos (by simp [ha2])]
        simp only [List.length_cons]
        exact Nat.le_succ_of_le ih
      · rw [if_pos (by simp [ha, ha2]), if_pos (by simp [ha2])]
        simp only [List.length_cons]
        exact Nat.succ_le_succ ih

theorem filter_notmem_cons_lt (d : List Nat) (seen : List Nat) (id : Nat)
    (hmem : id ∈ d) (hns : id ∉ seen) :
    (d.filter fun i => i ∉ (id :: seen)).length < (d.filter fun i => i ∉ seen).length := by
  induction d with
  | nil => cases hmem
  | cons a rest ih =>
    rw [List.filter_cons, List.filter_cons]
    by_cases ha : a = id
    · subst ha
      rw [if_neg (by simp), if_pos (by simp [hns])]
      simp only [List.length_cons]
      have hle := filter_notmem_cons_le rest seen a
      omega
    · have hmem2 : id ∈ rest := by
        rcases List.mem_cons.mp hmem with hcon | hmem2
        · exact absurd hcon.symm ha
        · exact hmem2
      by_cases ha2 : a ∈ seen
      · rw [if_neg (by simp [ha2]), if_neg (by simp [ha2])]
        exact ih hmem2
      · rw [if_pos (by simp [ha, ha2]), if_pos (by simp [ha2])]
        simp only [List.length_cons]
        have := ih hmem2
        omega

theorem unseenCount_cons_lt {h : Heap} {seen : List Nat} {id : Nat}
    (hl : (h.lookup id).isSome) (hns : id ∉ seen) :
    unseenCount h (id :: seen) < unseenCount h seen :=
  filter_notmem_cons_lt (h.map Prod.fst) seen id (lookup_mem_keys hl) hns

theorem renderSeqG_total {recE : List Nat → Nat → Option (String × List Nat)}
    {pIndent ni : String} :
    ∀ (l : List Nat) (seen : List Nat),
      (∀ e ∈ l, ∃ out, recE seen e = some (out, seen)) →
      ∃ out, renderSeqG recE pIndent ni seen l = some (out, seen) := by
  intro l
  induction l with
  | nil =>
    intro seen _
    exact ⟨"", rfl⟩
  | cons e rest ih =>
    intro seen hrec
    obtain ⟨out1, h1⟩ := hrec e (List.mem_cons_self e rest)
    obtain ⟨out2, h2⟩ := ih seen fun x hx => hrec x (List.mem_cons_of_mem e hx)
    refine ⟨ni ++ out1 ++
      (if pIndent ≠ "" then ",\n" else if rest.isEmpty then "" else ", ") ++ out2, ?_⟩
    simp [renderSeqG, h1, h2]

theorem renderFieldsG_total {h : Heap} {p : Printer}
    {recF : List Nat → Nat → Bool → Option (String × List Nat)} {ni : String} :
    ∀ (l : List (String × GoType × Nat × Bool)) (seen : List Nat) (prev : Bool),
      (∀ fld ∈ l, ∃ out, recF seen fld.2.2.1 (fld.2.1 = anyT) = some (out, seen)) →
      ∃ out, renderFieldsG h p recF ni seen prev l = some (out, seen) := by
  intro l
  induction l with
  | nil =>
    intro seen prev _
    exact ⟨"", rfl⟩
  | cons fld rest ih =>
    obtain ⟨nm, ft, fv, canI⟩ := fld
    intro seen prev hrec
    have hrest := fun x hx => hrec x (List.mem_cons_of_mem _ hx)
    by_cases h1 : ft ∈ p.exclude
    · obtain ⟨out, ho⟩ := ih seen prev hrest
      exact ⟨out, by simp only [renderFieldsG, if_pos h1]; exact ho⟩
    · by_cases h2 : nm ∈ p.excludeFields
      · obtain ⟨out, ho⟩ := ih seen prev hrest
        exact ⟨out, by simp only [renderFieldsG, if_neg h1, if_pos h2]; exact ho⟩
      · by_cases h3 : (p.ignorePrivate && !canI) = true
        · obtain ⟨out, ho⟩ := ih seen prev hrest
          exact ⟨out, by simp only [renderFieldsG, if_neg h1, if_neg h2, if_pos h3]; exact ho⟩
        · by_cases h4 : (p.omitZero && goIsZeroG h (h.length + 1) fv) = true
          · obtain ⟨out, ho⟩ := ih seen prev hrest
            exact ⟨out, by
              simp only [renderFieldsG, if_neg h1, if_neg h2, if_neg h3, if_pos h4]
              exact ho⟩
          · by_cases h5 : (p.omitEmpty && (goIsZeroG h (h.length + 1) fv ||
                (ft.kind = .slice && goLenG h fv = 0) ||
                (ft.kind = .map && goLenG h fv = 0))) = true
            · obtain ⟨out, ho⟩ := ih seen prev hrest
              exact ⟨out, by
                simp only [renderFieldsG, if_neg h1, if_neg h2, if_neg h3, if_neg h4,
                  if_pos h5]
                exact ho⟩
            · obtain ⟨out1, ho1⟩ := hrec (nm, ft, fv, canI) (List.mem_cons_self _ _)
              obtain ⟨out2, ho2⟩ := ih seen true hrest
              refine ⟨(if prev && p.indent = "" then ", " else "") ++ ni ++ nm ++ ": " ++
                out1 ++
                (if p.ignorePrivate && !(rest.any fun f => f.2.2.2) then ""
                  else if p.indent ≠ "" then ",\n" else "") ++ out2, ?_⟩
              simp only [renderFieldsG, if_neg h1, if_neg h2, if_neg h3, if_neg h4,
                if_neg h5, ho1, ho2]

theorem reprG_total :
    ∀ (fuel : Nat) (h : Heap) (p : Printer) (seen : List Nat) (id : Nat) (indent : String)
      (sst anyv : Bool), heapWF h → (h.lookup id).isSome → unseenCount h seen < fuel →
      ∃ out, reprG h p fuel seen id indent sst anyv = some (out, seen) := by
  intro fuel
  induction fuel with
  | zero =>
    intro h p seen id indent sst anyv _ _ hfuel
    exact absurd hfuel (Nat.not_lt_zero _)
  | succ fuel ih =>
    intro h p seen id indent sst anyv hwf hid hfuel
    by_cases hseen : id ∈ seen
    · exact ⟨"...", by simp [reprG, hseen]⟩
    · obtain ⟨c, hc⟩ := Option.isSome_iff_exists.mp hid
      have hmemh : (id, c) ∈ h := lookup_mem hc
      have hdec : unseenCount h (id :: seen) < fuel := by
        have := unseenCount_cons_lt hid hseen
        omega
      have hrec : ∀ r ∈ cellRefs c, ∀ indent2 sst2 anyv2, ∃ out,
          reprG h p fuel (id :: seen) r indent2 sst2 anyv2 = some (out, id :: seen) :=
        fun r hr indent2 sst2 anyv2 =>
          ih h p (id :: seen) r indent2 sst2 anyv2 hwf (hwf.2 (id, c) hmemh r hr) hdec
      cases c with
      | cNil t =>
        exact ⟨"nil", by simp only [reprG, if_neg hseen, hc, List.erase_cons_head]⟩
      | cScalar t n sv gv =>
        by_cases hcnd : (decide (t.typeName ≠ realKindName t.kind) || p.alwaysIncludeType ||
            anyv) = true
        · exact ⟨t.typeStr ++ "(" ++ (if p.useLiterals then gv else sv) ++ ")",
            by simp only [reprG, if_neg hseen, hc, if_pos hcnd, List.erase_cons_head]⟩
        · exact ⟨(if p.useLiterals then gv else sv),
            by simp only [reprG, if_neg hseen, hc, if_neg hcnd, List.erase_cons_head]⟩
      | cStr t s0 =>
        by_cases hcnd : (decide (t.typeName ≠ "string") || p.alwaysIncludeType) = true
        · exact ⟨t.typeStr ++ "(" ++ goQuote s0 ++ ")",
            by simp only [reprG, if_neg hseen, hc, if_pos hcnd, List.erase_cons_head]⟩
        · exact ⟨goQuote s0,
            by simp only [reprG, if_neg hseen, hc, if_neg hcnd, List.erase_cons_head]⟩
      | cPtr t e =>
        obtain ⟨out1, h1⟩ := hrec e (by simp [cellRefs]) indent sst false
        exact ⟨(if sst then "&" else "") ++ out1,
          by simp only [reprG, if_neg hseen, hc, h1, List.erase_cons_head]⟩
      | cSlice t elems =>
        by_cases hb : t = byteSliceT
        · exact ⟨"[]byte(" ++ goQuoteBytes (bytesOfG h elems) ++ ")",
            by simp only [reprG, if_neg hseen, hc, if_pos hb, List.erase_cons_head]⟩
        · by_cases hemp : elems.isEmpty = true
          · exact ⟨substAny t ++ "\x7b\x7d",
              by simp only [reprG, if_neg hseen, hc, if_neg hb, if_pos hemp,
                List.erase_cons_head]⟩
          · obtain ⟨body, hbody⟩ :=
              @renderSeqG_total
                (fun sn e =>
                  reprG h p fuel sn e (p.nextIndent indent)
                    (p.alwaysIncludeType || p.explicitTypes) (t.elemT = anyT))
                p.indent (p.nextIndent indent) elems (id :: seen)
                (fun e he =>
                  hrec e (by simpa [cellRefs] using he) (p.nextIndent indent)
                    (p.alwaysIncludeType || p.explicitTypes) (t.elemT = anyT))
            exact ⟨substAny t ++ "\x7b" ++ (if p.indent ≠ "" then "\n" else "") ++ body ++
                p.thisIndent indent ++ "\x7d",
              by simp only [reprG, if_neg hseen, hc, if_neg hb, if_neg hemp, hbody,
                List.erase_cons_head]⟩
      | cStruct t fields =>
        obtain ⟨body, hbody⟩ :=
          @renderFieldsG_total h p
            (fun sn fv anyv2 => reprG h p fuel sn fv (p.nextIndent indent) true anyv2)
            (p.nextIndent indent) fields (id :: seen) false
            (fun fld hf =>
              hrec fld.2.2.1
                (by
                  simp only [cellRefs]
                  exact List.mem_map_of_mem _ hf)
                (p.nextIndent indent) true (fld.2.1 = anyT))
        exact ⟨(if sst then substAny t ++ "\x7b" else "\x7b") ++
            (if p.indent ≠ "" && fields.length ≠ 0 then "\n" else "") ++ body ++ indent ++
            "\x7d",
          by simp only [reprG, if_neg hseen, hc, hbody, List.erase_cons_head]⟩

/-- Claim C2 (confirmed): over a well-formed cell graph the cycle-guarded
traversal terminates — any fuel exceeding the number of not-yet-seen heap
identities suffices, because an identity is added to the cycle set before
recursing into it — and it returns with the cycle set exactly as it found
it, so a sibling subtree never sees a stale entry (the same scoped-release
discipline is stated for the tree renderer); on the concrete cyclic value of
TestRecursiveIssue3 (a record pointing to itself through a contained
sequence) rendering terminates and emits the ellipsis placeholder exactly
once, at the single cycle re-entry. -/
theorem C2_cycle_guard :
    (∀ (h : Heap) (p : Printer) (fuel : Nat) (seen : List Nat) (id : Nat) (indent : String)
      (sst anyv : Bool), heapWF h → (h.lookup id).isSome → unseenCount h seen < fuel →
      ∃ out, reprG h p fuel seen id indent sst anyv = some (out, seen)) ∧
    (∀ fuelT p seen v indent sst anyv out seen',
      reprValue p fuelT seen v indent sst anyv = some (out, seen') → seen' = seen) ∧
    reprG cycHeap noIndentP 9 [] 1 "" true false =
      some ("&repr.data\x7bchildren: []*repr.data\x7b\x7bparent: &...\x7d\x7d\x7d", []) ∧
    heapWF cycHeap := by
  refine ⟨fun h p fuel seen id indent sst anyv hwf hid hfuel =>
      reprG_total fuel h p seen id indent sst anyv hwf hid hfuel,
    reprValue_seen, by decide, by decide⟩

/-- Claim C2 witness: the termination bound applied to the concrete cyclic
heap of TestRecursiveIssue3 with its well-formedness discharged. -/
theorem C2_cycle_guard_witness :
    heapWF cycHeap ∧
      ∃ out, reprG cycHeap noIndentP 9 [] 1 "" true false = some (out, []) :=
  ⟨by decide,
    C2_cycle_guard.1 cycHeap noIndentP 9 [] 1 "" true false (by decide) (by decide)
      (by decide)⟩

end GoRepr
